import Mathlib

/-!
Verification development for the HEZARTECH data preprocessing pipeline
(`src/utils.py`, `src/app.py`).  The Python source is shallowly embedded:
strings are `List Char`, pandas/file effects are made explicit as values,
and the nondeterministic iteration order of Python's `set` is abstracted
into a deduplication parameter constrained by `IsDedup`.  Scanning functions
(`re.sub` passes, `str.replace`) are written with an explicit fuel argument
(initialized to the input length, which each step strictly consumes) so that
all definitions reduce by computation.
-/

set_option maxHeartbeats 1000000

/-- Strings are modelled as lists of characters. -/
abbrev Str := List Char

/-! ## Character classes (ASCII code ranges, as used by the regexes in
`clean_text`; 48-57 = `0`-`9`, 65-90 = `A`-`Z`, 97-122 = `a`-`z`,
95 = `_`, 32 = space, 9 = tab) -/

/-- ASCII decimal digit (`0-9` in the regex character classes, and `\d` on ASCII input). -/
def isDigitCh (c : Char) : Bool := 48 ≤ c.toNat && c.toNat ≤ 57

/-- ASCII uppercase letter (`A-Z`). -/
def isUpperCh (c : Char) : Bool := 65 ≤ c.toNat && c.toNat ≤ 90

/-- ASCII lowercase letter (`a-z`). -/
def isLowerCh (c : Char) : Bool := 97 ≤ c.toNat && c.toNat ≤ 122

/-- ASCII alphanumeric: the literal regex class `0-9A-Za-z`. -/
def isAlnumAscii (c : Char) : Bool := isDigitCh c || isUpperCh c || isLowerCh c

/-- Regex `\w` on ASCII input: alphanumeric or underscore. -/
def isWordCh (c : Char) : Bool := isAlnumAscii c || c.toNat == 95

/-- Python `str.split()` / regex `\s` whitespace, restricted to ASCII:
space, tab, newline, carriage return, vertical tab, form feed. -/
def isPySpace (c : Char) : Bool :=
  c.toNat == 32 || c.toNat == 9 || c.toNat == 10 ||
  c.toNat == 13 || c.toNat == 11 || c.toNat == 12

/-! ## Generic string helpers -/

/-- `pfx pat s` tests whether `pat` is a prefix of `s`. -/
def pfx : Str → Str → Bool
  | [], _ => true
  | _ :: _, [] => false
  | a :: as, b :: bs => a == b && pfx as bs

/-- `occursIn s pat` tests whether `pat` occurs as a contiguous substring of `s`
(Python's `pat in s`). -/
def occursIn : Str → Str → Bool
  | [], pat => pfx pat []
  | c :: rest, pat => pfx pat (c :: rest) || occursIn rest pat

/-- Length of the longest prefix of `s` whose characters all satisfy `p`. -/
def countLeading (p : Char → Bool) : Str → Nat
  | [] => 0
  | c :: rest => if p c then countLeading p rest + 1 else 0

/-! ## `turkish_characters` (src/utils.py:279) -/

/-- The `str.maketrans("ğĞıİöÖüÜşŞçÇ", "gGiIoOuUsScC")` character table. -/
def turkishTrans (c : Char) : Char :=
  if c == 'ğ' then 'g' else if c == 'Ğ' then 'G'
  else if c == 'ı' then 'i' else if c == 'İ' then 'I'
  else if c == 'ö' then 'o' else if c == 'Ö' then 'O'
  else if c == 'ü' then 'u' else if c == 'Ü' then 'U'
  else if c == 'ş' then 's' else if c == 'Ş' then 'S'
  else if c == 'ç' then 'c' else if c == 'Ç' then 'C' else c

/-- `turkish_characters` from src/utils.py:279: transliterate the twelve Turkish
characters to their English counterparts. -/
def turkish_characters (s : Str) : Str := s.map turkishTrans

/-! ## `clean_text` (src/utils.py:292) -/

/-- Python `str.lower()` restricted to ASCII (`A-Z` to `a-z`); theorems that
quantify over inputs are stated on domains where this restriction is
faithful. -/
def pyLower (c : Char) : Char :=
  if isUpperCh c then Char.ofNat (c.toNat + 32) else c

/-- Helper for Python `str.split()`: accumulates the current token (reversed). -/
def splitWsAux : Str → Str → List Str
  | [], acc => if acc.isEmpty then [] else [acc.reverse]
  | c :: rest, acc =>
    if isPySpace c then
      if acc.isEmpty then splitWsAux rest [] else acc.reverse :: splitWsAux rest []
    else splitWsAux rest (c :: acc)

/-- Python `str.split()` with no arguments: split on runs of whitespace,
dropping empty tokens. -/
def splitWs (s : Str) : List Str := splitWsAux s []

/-- Python `" ".join(tokens)`. -/
def joinSp (ts : List Str) : Str := (List.intersperse [' '] ts).flatten

/-- The token filter of src/utils.py:309: keep a word iff it contains
neither `#` nor `@`. -/
def keepTok (w : Str) : Bool := !w.contains '#' && !w.contains '@'

/-- Line 309 of src/utils.py: split on whitespace, drop tokens containing
`#` or `@`, re-join with single spaces. -/
def dropTags (s : Str) : Str := joinSp ((splitWs s).filter keepTok)

/-! Regex pass 1 (src/utils.py:310):
`re.sub(r"(@\[A-Za-z0-9]+)|([^0-9A-Za-z \t])|(\w+:\/\/\S+)|^rt|http.+?", "", text)`.
Each alternative is modelled as a matcher returning the number of characters
consumed at the current position (always at least 1), tried in pattern order. -/

/-- Alternative 1, `@\[A-Za-z0-9]+`: the `[` is escaped, so this is the literal
text `@[A-Za-z0-9` followed by one or more `]` (greedy). -/
def matchAt1 (s : Str) : Option Nat :=
  if pfx ("@[A-Za-z0-9".toList) s then
    let k := countLeading (fun c => c == ']') (s.drop 11)
    if 1 ≤ k then some (11 + k) else none
  else none

/-- Alternative 2, `[^0-9A-Za-z \t]`: one character outside the class. -/
def matchAt2 (s : Str) : Option Nat :=
  match s with
  | [] => none
  | c :: _ =>
    if isAlnumAscii c || c.toNat == 32 || c.toNat == 9 then none else some 1

/-- Alternative 3, `\w+:\/\/\S+`: a maximal nonempty run of word characters
(no shorter run can succeed since `:` is not a word character), then `://`,
then a maximal nonempty run of non-space characters. -/
def matchAt3 (s : Str) : Option Nat :=
  let k := countLeading isWordCh s
  if 1 ≤ k && pfx ("://".toList) (s.drop k) then
    let m := countLeading (fun c => !isPySpace c) (s.drop (k + 3))
    if 1 ≤ m then some (k + 3 + m) else none
  else none

/-- Alternative 4, `^rt`: the literal `rt`, only at the start of the string. -/
def matchAt4 (atStart : Bool) (s : Str) : Option Nat :=
  if atStart && pfx ("rt".toList) s then some 2 else none

/-- Alternative 5, `http.+?`: literal `http` then a lazy `.+?` which, with
nothing after it in the pattern, consumes exactly one character; `.` does not
match a newline. -/
def matchAt5 (s : Str) : Option Nat :=
  if pfx ("http".toList) s then
    match s.drop 4 with
    | [] => none
    | c :: _ => if c == '\n' then none else some 5
  else none

/-- The five alternatives of regex pass 1, tried left to right. -/
def reMatch1 (atStart : Bool) (s : Str) : Option Nat :=
  matchAt1 s <|> matchAt2 s <|> matchAt3 s <|> matchAt4 atStart s <|> matchAt5 s

/-- Fueled `re.sub` scan for pass 1: at each position, if some alternative
matches, drop the matched characters (replacement is empty) and continue
after them; otherwise copy one character.  All matchers consume at least one
character, so fuel equal to the input length suffices. -/
def reSub1F : Nat → Bool → Str → Str
  | 0, _, s => s
  | fuel + 1, atStart, s =>
    match s with
    | [] => []
    | c :: rest =>
      match reMatch1 atStart (c :: rest) with
      | none => c :: reSub1F fuel false rest
      | some n => reSub1F fuel false ((c :: rest).drop n)

/-- Regex pass 1 of src/utils.py:310 (`^` anchors at the start, so the scan
begins with `atStart = true`). -/
def reSub1 (atStart : Bool) (s : Str) : Str := reSub1F s.length atStart s

/-- Fueled scan for regex pass 2 (src/utils.py:311):
`re.sub(r"\W+\s*", " ", text)` (the `re.VERBOSE` flag strips the pattern's
layout whitespace).  A maximal run of non-word characters — which, `\s` being
contained in `\W`, already absorbs any trailing whitespace the greedy `\s*`
would take — is replaced by one space. -/
def reSub2F : Nat → Str → Str
  | 0, s => s
  | fuel + 1, s =>
    match s with
    | [] => []
    | c :: rest =>
      if isWordCh c then c :: reSub2F fuel rest
      else
        let k := countLeading (fun c => !isWordCh c) (c :: rest)
        let t := (c :: rest).drop k
        let m := countLeading isPySpace t
        ' ' :: reSub2F fuel (t.drop m)

/-- Regex pass 2 of src/utils.py:311. -/
def reSub2 (s : Str) : Str := reSub2F s.length s

/-- Regex pass 3 (src/utils.py:318): `re.sub(r"\d+", "", text)` — removing
every maximal digit run is removing every digit character. -/
def reSub3 (s : Str) : Str := s.filter (fun c => !isDigitCh c)

/-- `clean_text` from src/utils.py:292: lower-case, drop `#`/`@` tokens,
then the three regex substitution passes in order. -/
def clean_text (s : Str) : Str :=
  reSub3 (reSub2 (reSub1 true (dropTags (s.map pyLower))))

/-- The cleaning pipeline of `data_cleaner` (src/utils.py:404):
`turkish_characters` followed by `clean_text`. -/
def normalizeText (s : Str) : Str := clean_text (turkish_characters s)

/-! ## Python `str.replace` (used for filename derivation) -/

/-- Fueled Python `s.replace(pat, rep)`: replace every non-overlapping
occurrence of `pat`, scanning left to right.  All call sites use a nonempty
`pat`, so each step consumes at least one character and fuel equal to the
input length suffices. -/
def pyReplaceF : Nat → Str → Str → Str → Str
  | 0, _, _, s => s
  | fuel + 1, pat, rep, s =>
    match s with
    | [] => []
    | c :: rest =>
      if pfx pat (c :: rest) then
        rep ++ pyReplaceF fuel pat rep ((c :: rest).drop pat.length)
      else c :: pyReplaceF fuel pat rep rest

/-- Python `s.replace(pat, rep)` for nonempty `pat`. -/
def pyReplace (pat rep s : Str) : Str := pyReplaceF s.length pat rep s

/-- The filename built by `export_json` (src/app.py:502):
`dataset.replace('xlsx', 'json').replace('csv', 'json')`. -/
def jsonNameOf (dataset : Str) : Str :=
  pyReplace ("csv".toList) ("json".toList) (pyReplace ("xlsx".toList) ("json".toList) dataset)

/-- The filename of the aggregated CSV written by `json_to_csv`
(src/utils.py:496): `filename.replace('json', 'csv')`. -/
def csvNameOf (filename : Str) : Str := pyReplace ("json".toList) ("csv".toList) filename

/-- The filename written by `csv_to_xlsx` (src/utils.py:341):
`filename.replace("csv", "xlsx")`. -/
def xlsxNameOf (filename : Str) : Str := pyReplace ("csv".toList) ("xlsx".toList) filename

/-! ## Annotation aggregation: `json_to_csv` (src/utils.py:436) -/

/-- One annotation of a labelled span: a tag literal plus the annotated text. -/
structure Ann where
  tag : String
  text : String
  deriving Repr, DecidableEq

/-- One annotator submission unit (an element of the JSON `data` array):
`{page, text, annotations}`. -/
structure AnnotationEvent where
  page : Int
  text : String
  annotations : List Ann
  deriving Repr, DecidableEq

/-- The four tag literals of the category vocabulary. -/
def vocab : List String := ["FIRMA", "POZITIF", "NEGATIF", "NOTR"]

/-- The `translate_json` lookup table of src/utils.py:456: the four-entry
tag vocabulary; a tag outside it has no translation (Python raises `KeyError`). -/
def translate_json (tag : String) : Option String :=
  if tag = "FIRMA" then some "company"
  else if tag = "POZITIF" then some "positive"
  else if tag = "NEGATIF" then some "negative"
  else if tag = "NOTR" then some "notr"
  else none

/-- The per-event `temp_data` accumulator of src/utils.py:470. -/
structure TempData where
  company : List String
  positive : List String
  negative : List String
  notr : List String
  deriving Repr, DecidableEq

/-- The initial `temp_data` value: four empty lists. -/
def TempData.empty : TempData := ⟨[], [], [], []⟩

/-- `temp_data[eng_version].append(x['text'])` (src/utils.py:481). -/
def TempData.add (td : TempData) (key : String) (text : String) : TempData :=
  if key = "company" then { td with company := td.company ++ [text] }
  else if key = "positive" then { td with positive := td.positive ++ [text] }
  else if key = "negative" then { td with negative := td.negative ++ [text] }
  else { td with notr := td.notr ++ [text] }

/-- The annotation loop of src/utils.py:478: translate each tag and collect
the annotated text under its category; an untranslatable tag makes the whole
call return that offending tag as the error (`return err`). -/
def collectAnns : List Ann → TempData → Except String TempData
  | [], td => .ok td
  | a :: rest, td =>
    match translate_json a.tag with
    | none => .error a.tag
    | some key => collectAnns rest (td.add key a.text)

/-- A valid deduplication function: `list(set(l))` in Python returns the
distinct elements of `l` in an order the language does not specify, so the
embedding abstracts it as any function producing a duplicate-free list with
exactly the members of its input. -/
def IsDedup (f : List String → List String) : Prop :=
  ∀ l : List String, (f l).Nodup ∧ ∀ a : String, a ∈ f l ↔ a ∈ l

/-- Lines 485-493 of src/utils.py: an empty category yields the empty string,
a nonempty one yields its deduplicated texts joined with `|`. -/
def finalizeCategory (dedup : List String → List String) (l : List String) : String :=
  if l.isEmpty then "" else String.intercalate "|" (dedup l)

/-- The `df_data` column accumulator of src/utils.py:447: six parallel
columns in the order `id, text, company, positive, negative, notr`. -/
structure DfData where
  id : List Int
  text : List String
  company : List String
  positive : List String
  negative : List String
  notr : List String
  deriving Repr, DecidableEq

/-- The initial `df_data` value: six empty columns. -/
def DfData.empty : DfData := ⟨[], [], [], [], [], []⟩

/-- The event loop of src/utils.py:466: append the event's page and text,
collect its annotations (an unknown tag aborts the whole call), then append
one finalized cell per category. -/
def jsonToCsvLoop (dedup : List String → List String) :
    List AnnotationEvent → DfData → Except String DfData
  | [], d => .ok d
  | e :: rest, d =>
    let d1 := { d with id := d.id ++ [e.page], text := d.text ++ [e.text] }
    match collectAnns e.annotations TempData.empty with
    | .error tag => .error tag
    | .ok td =>
      jsonToCsvLoop dedup rest
        { d1 with
          company := d1.company ++ [finalizeCategory dedup td.company]
          positive := d1.positive ++ [finalizeCategory dedup td.positive]
          negative := d1.negative ++ [finalizeCategory dedup td.negative]
          notr := d1.notr ++ [finalizeCategory dedup td.notr] }

/-! ## Integer to decimal string (pandas writes int64 cells as decimal) -/

/-- Decimal digit character of a value below ten. -/
def digitCh (n : Nat) : Char := Char.ofNat (n + 48)

/-- Fueled computation of the decimal digits of a natural number, most
significant first (`n / 10` strictly decreases, so fuel `n + 1` suffices). -/
def natDigitsF : Nat → Nat → Str
  | 0, _ => []
  | fuel + 1, n => if n < 10 then [digitCh n] else natDigitsF fuel (n / 10) ++ [digitCh (n % 10)]

/-- Decimal digits of a natural number, most significant first. -/
def natDigits (n : Nat) : Str := natDigitsF (n + 1) n

/-- Decimal representation of an integer, as a character list. -/
def intStrL (n : Int) : Str :=
  if n < 0 then '-' :: natDigits n.natAbs else natDigits n.natAbs

/-- Decimal representation of an integer, as a string. -/
def intStr (n : Int) : String := String.mk (intStrL n)

/-! ## The aggregated CSV (`pd.DataFrame(df_data).to_csv`, src/utils.py:494) -/

/-- A CSV file at the cell level: a header row plus data rows.  Container
level quoting/escaping is lossless and abstracted away. -/
structure Csv where
  header : List String
  rows : List (List String)
  deriving Repr, DecidableEq

/-- The column order fixed by the `df_data` dictionary literal. -/
def stdHeader : List String := ["id", "text", "company", "positive", "negative", "notr"]

/-- Rows of a `DataFrame` built from six parallel columns (`id` cells are
written as decimal integers). -/
def zipCols : List Int → List String → List String → List String → List String →
    List String → List (List String)
  | i :: is, t :: ts, c :: cs, p :: ps, n :: ns, o :: os =>
    [intStr i, t, c, p, n, o] :: zipCols is ts cs ps ns os
  | _, _, _, _, _, _ => []

/-- `pd.DataFrame(df_data)` serialized to cells: the header in dictionary
order and one row per index of the parallel columns. -/
def dfToCsv (d : DfData) : Csv :=
  ⟨stdHeader, zipCols d.id d.text d.company d.positive d.negative d.notr⟩

/-- `json_to_csv` from src/utils.py:436, at the level of the parsed JSON
array: aggregate all events into the output CSV, or return the first
offending tag. -/
def json_to_csv (dedup : List String → List String) (events : List AnnotationEvent) :
    Except String Csv :=
  (jsonToCsvLoop dedup events DfData.empty).map dfToCsv

/-- `json_to_csv` including its file write (src/utils.py:494-497): the CSV is
written under `filename.replace('json','csv')` only after the whole loop
succeeded; on error nothing is written. -/
def jsonToCsvFiles (dedup : List String → List String) (filename : Str)
    (events : List AnnotationEvent) : List (Str × Csv) :=
  match json_to_csv dedup events with
  | .error _ => []
  | .ok csv => [(csvNameOf filename, csv)]

/-! ## The `/exportData/json` endpoint: `export_json` (src/app.py:475) -/

/-- The observable reaction of `export_json`. -/
inductive ExportResponse
  | rejected
  | errorResponse
  | crash
  | redirect
  deriving Repr, DecidableEq

/-- What `export_json` did: its HTTP-level reaction plus the names of the
files it wrote, in write order. -/
structure ExportOutcome where
  response : ExportResponse
  written : List Str
  deriving Repr, DecidableEq

/-- `export_json` from src/app.py:475.  The request's `dataset` field is an
optional string; the `data` field is modelled as an optional event list (the
guard's `''`/`{}` cases concern non-list payloads outside this model, which
covers absent data and list payloads).  Effects: the guard rejects only when
`dataset` and `data` are both absent/empty; otherwise the submitted data is
dumped to the derived `.json` file; `json_to_csv` then writes the aggregated
CSV or yields an error response; iterating absent data raises an uncaught
`TypeError` (after the JSON dump), and deriving a filename from an absent
dataset raises an uncaught `AttributeError` (before any write).  The
`save_to_db` sink calls are external and assumed to succeed. -/
def export_json (dedup : List String → List String) (dataset : Option Str)
    (data : Option (List AnnotationEvent)) : ExportOutcome :=
  if (dataset = none ∨ dataset = some []) ∧ (data = none ∨ data = some []) then
    ⟨.rejected, []⟩
  else
    match dataset with
    | none => ⟨.crash, []⟩
    | some ds =>
      let fn := jsonNameOf ds
      match data with
      | none => ⟨.crash, [fn]⟩
      | some events =>
        match json_to_csv dedup events with
        | .error _ => ⟨.errorResponse, [fn]⟩
        | .ok _ => ⟨.redirect, [fn, csvNameOf fn]⟩

/-! ## `data_cleaner` (src/utils.py:380) -/

/-- What `data_cleaner` did: whether it redirected (success) or returned the
error response, the derived `clean_text` column when successful, and the
names of the files it wrote. -/
structure CleanOutcome where
  ok : Bool
  cleaned : Option (List Str)
  written : List Str
  deriving Repr, DecidableEq

/-- `data_cleaner` from src/utils.py:380, parametrized by the text column the
two readers would deliver.  Note the source tests the substrings `'csv'` and
`'xslx'` (sic) of the filename; when neither matches, `df` stays `None` and
the raised `FileNotFoundError` is caught, producing the error response.  On
success it writes the cleaned CSV under the original filename and, via
`csv_to_xlsx`, the spreadsheet form. -/
def data_cleaner (filename : Str) (csvTexts xlsxTexts : List Str) : CleanOutcome :=
  let df0 : Option (List Str) := none
  let df1 := if occursIn filename ("csv".toList) then some csvTexts else df0
  let df2 := if occursIn filename ("xslx".toList) then some xlsxTexts else df1
  match df2 with
  | none => ⟨false, none, []⟩
  | some texts => ⟨true, some (texts.map normalizeText), [filename, xlsxNameOf filename]⟩

/-! ## Cleaned-dataset files and `extract_text_and_ids_from_dataset`
(src/utils.py:357) -/

/-- A value in a loaded pandas column: an inferred int64, an inferred uint64
(the parser's fallback for nonnegative integers past the int64 range), a
retained string, or a missing value (`NaN` from an empty field). -/
inductive Cell
  | intv (n : Int)
  | uintv (n : Nat)
  | strv (s : String)
  | na
  deriving Repr, DecidableEq

/-- Character-level test for a decimal digit string. -/
def isDigitStr (s : Str) : Bool := !s.isEmpty && s.all isDigitCh

/-- An optionally signed (`-` or `+`, both accepted by the integer parser)
decimal integer literal (character level). -/
def isIntLitL : Str → Bool
  | [] => false
  | c :: rest => if c == '-' || c == '+' then isDigitStr rest else isDigitStr (c :: rest)

/-- An optionally signed decimal integer literal. -/
def isIntLit (s : String) : Bool := isIntLitL s.toList

/-- Numeric value of a digit character. -/
def digitVal (c : Char) : Nat := c.toNat - 48

/-- Value of a decimal digit string. -/
def parseNatL (s : Str) : Nat := s.foldl (fun acc c => acc * 10 + digitVal c) 0

/-- Value of an optionally signed decimal integer literal (character level). -/
def parseIntL : Str → Int
  | [] => 0
  | c :: rest =>
    if c == '-' then -(parseNatL rest : Int)
    else if c == '+' then (parseNatL rest : Int)
    else (parseNatL (c :: rest) : Int)

/-- Value of an optionally signed decimal integer literal. -/
def parseIntS (s : String) : Int := parseIntL s.toList

/-- Smallest `int64` value. -/
def int64Min : Int := -(2 ^ 63)

/-- Largest `int64` value. -/
def int64Max : Int := 2 ^ 63 - 1

/-- Largest `uint64` value. -/
def uint64Max : Int := 2 ^ 64 - 1

/-- Characters a numeric literal can be made of: digits, signs, the decimal
point, exponent marks. -/
def numericishCh (c : Char) : Bool :=
  isDigitCh c || c == '.' || c == '-' || c == '+' || c == 'e' || c == 'E'

/-- The cell's integer value fits in int64. -/
def inInt64 (c : String) : Bool :=
  decide (int64Min ≤ parseIntS c ∧ parseIntS c ≤ int64Max)

/-- The cell's integer value fits in uint64. -/
def inUInt64 (c : String) : Bool :=
  decide (0 ≤ parseIntS c ∧ parseIntS c ≤ uint64Max)

/-- Column-level type inference of `pd.read_csv`, modelled for the integer
levels: a nonempty column of integer literals loads as int64 when all values
fit, as uint64 when they are nonnegative and fit 64 unsigned bits (the
parser's overflow fallback); otherwise cells are retained as strings, except
that an empty field loads as missing (`NaN`).  Float and boolean column
inference and missing-value sentinel recognition are not modelled — every
theorem restricts its inputs so that the program takes exactly the branch
modelled here. -/
def parseCol (cells : List String) : List Cell :=
  if !cells.isEmpty && cells.all isIntLit && cells.all inInt64 then
    cells.map (fun c => .intv (parseIntS c))
  else if !cells.isEmpty && cells.all isIntLit && cells.all inUInt64 then
    cells.map (fun c => .uintv (parseIntS c).toNat)
  else
    cells.map (fun c => if c = "" then .na else .strv c)

/-- `astype('int64')` on one cell: an int64 value is unchanged; a uint64
value is cast with numpy's unchecked conversion, silently wrapping modulo
`2 ^ 64` when it exceeds the int64 maximum; a retained string goes through
Python `int()`, which fails on anything but an integer literal and overflows
past 64 bits; a missing value cannot be coerced. -/
def coerceInt64 : Cell → Except String Int
  | .intv n => if int64Min ≤ n ∧ n ≤ int64Max then .ok n else .error "overflow"
  | .uintv n => .ok (if (n : Int) ≤ int64Max then (n : Int) else (n : Int) - 2 ^ 64)
  | .strv s =>
    if isIntLit s then
      if int64Min ≤ parseIntS s ∧ parseIntS s ≤ int64Max then .ok (parseIntS s)
      else .error "overflow"
    else .error s
  | .na => .error "NA"

/-- `astype('string')` on one cell: never fails; an inferred integer renders
as its decimal form and a missing value becomes `pd.NA` (`none`). -/
def coerceStrng : Cell → Option String
  | .intv n => some (intStr n)
  | .uintv n => some (intStr (n : Int))
  | .strv s => some s
  | .na => none

/-- A cleaned-dataset file restricted to the `usecols=['id','text']`
projection: the raw cells of its `id` and `text` columns. -/
structure TableFile where
  idCol : List String
  textCol : List String
  deriving Repr, DecidableEq

/-- Coerce a whole column, stopping at the first failing cell (the behavior
of `astype`, which raises on the first non-coercible value). -/
def mapExcept {α β γ : Type} (f : α → Except γ β) : List α → Except γ (List β)
  | [] => .ok []
  | a :: rest =>
    match f a, mapExcept f rest with
    | .error e, _ => .error e
    | .ok _, .error e => .error e
    | .ok b, .ok bs => .ok (b :: bs)

/-- `extract_text_and_ids_from_dataset` from src/utils.py:357, at the level
of the loaded columns: infer column types, coerce `id` to int64 and `text` to
string, and return the rows as `(id, text)` tuples in file order. -/
def extract_text_and_ids (f : TableFile) : Except String (List (Int × Option String)) :=
  match mapExcept coerceInt64 (parseCol f.idCol) with
  | .error e => .error e
  | .ok ids => .ok (ids.zip ((parseCol f.textCol).map coerceStrng))

/-- The cleaned-dataset write of `data_cleaner` (src/utils.py:410) projected
to the `id`/`text` columns: int64 ids are written as decimal literals, texts
as their cell contents (CSV quoting is lossless and abstracted away). -/
def writeCleaned (rows : List (Int × String)) : TableFile :=
  ⟨rows.map (fun p => intStr p.1), rows.map (fun p => p.2)⟩

/-- The round trip of §8 of the spec: write the cleaned dataset, load it
back, extract `(id, text)` pairs. -/
def roundTrip (rows : List (Int × String)) : Except String (List (Int × Option String)) :=
  extract_text_and_ids (writeCleaned rows)

/-! ## Auxiliary definitions used by the theorems -/

deriving instance DecidableEq for Except

/-- The `temp_data` collected for one event (meaningful when every tag of the
event translates; the error fallback is unreachable in that case). -/
def collectedOf (e : AnnotationEvent) : TempData :=
  match collectAnns e.annotations TempData.empty with
  | .ok td => td
  | .error _ => TempData.empty

/-- The aggregated CSV row of one event: its page as a decimal id, its text,
then the four finalized category cells. -/
def eventRow (dedup : List String → List String) (e : AnnotationEvent) : List String :=
  [intStr e.page, e.text,
    finalizeCategory dedup (collectedOf e).company,
    finalizeCategory dedup (collectedOf e).positive,
    finalizeCategory dedup (collectedOf e).negative,
    finalizeCategory dedup (collectedOf e).notr]

/-- All six `df_data` columns have the same length. -/
def BalancedDf (d : DfData) : Prop :=
  d.text.length = d.id.length ∧ d.company.length = d.id.length ∧
  d.positive.length = d.id.length ∧ d.negative.length = d.id.length ∧
  d.notr.length = d.id.length

/-- The concrete event of the spec's aggregation scenario (claim C3). -/
def ev3 : AnnotationEvent :=
  ⟨1, "hello world", [⟨"POZITIF", "hello"⟩, ⟨"POZITIF", "hello"⟩, ⟨"NEGATIF", "world"⟩]⟩

/-- A well-formed single-annotation event used by concrete instances. -/
def evC7 : AnnotationEvent := ⟨1, "t", [⟨"POZITIF", "x"⟩]⟩

/-- `hasHttpPlus s` holds when `http` occurs in `s` followed by at least one
more character (the condition under which regex alternative 5 can fire
somewhere in `s`). -/
def hasHttpPlus : Str → Bool
  | [] => false
  | c :: rest => (pfx ("http".toList) (c :: rest) && decide (4 ≤ rest.length)) || hasHttpPlus rest

/-- A lowercase ASCII letter or a space — the only characters the cleaning
pipeline can emit. -/
def lowSp (c : Char) : Bool := isLowerCh c || c.toNat == 32

/-- No two adjacent spaces anywhere in the string. -/
def noDoubleSp : Str → Bool
  | c1 :: c2 :: rest => !(c1.toNat == 32 && c2.toNat == 32) && noDoubleSp (c2 :: rest)
  | _ => true

/-- Drop leading and trailing Python whitespace. -/
def trimWs (s : Str) : Str :=
  ((s.dropWhile isPySpace).reverse.dropWhile isPySpace).reverse

/-- Drop leading and trailing whitespace of a string. -/
def trimS (s : String) : String := String.mk (trimWs s.toList)

/-- Drop one leading sign character. -/
def stripSign : Str → Str
  | [] => []
  | c :: rest => if c == '+' || c == '-' then rest else c :: rest

/-- The default missing-value sentinels of `read_csv` (`na_values`), each of
which loads as `NaN` wherever it appears. -/
def pandasNaLits : List String :=
  ["", "#N/A", "#N/A N/A", "#NA", "-1.#IND", "-1.#QNAN", "-NaN", "-nan",
   "1.#IND", "1.#QNAN", "<NA>", "N/A", "NA", "NULL", "NaN", "None", "n/a",
   "nan", "null"]

/-- Boolean literals the loader recognizes (a whole column of them loads as
a boolean column, which converts to int64 silently). -/
def boolLits : List String := ["True", "TRUE", "true", "False", "FALSE", "false"]

/-- Case-insensitive `inf`/`infinity`/`nan` with an optional sign and
optional surrounding whitespace — the word forms the float parser accepts. -/
def infNanWord (s : String) : Bool :=
  let t := (stripSign (trimWs s.toList)).map pyLower
  t == "inf".toList || t == "infinity".toList || t == "nan".toList

/-- A text value the loader keeps verbatim as a string: it has a character
outside every numeric-literal form and outside whitespace (hence it is
nonempty and no integer or float parse, even whitespace-padded, can consume
it), and — up to trimming — it is none of the missing-value sentinels,
boolean literals, or signed `inf`/`infinity`/`nan` words the parsers
recognize. -/
def textSafe (s : String) : Bool :=
  !(s.toList.all (fun c => numericishCh c || isPySpace c)) &&
  !(pandasNaLits.contains (trimS s)) &&
  !(boolLits.contains (trimS s)) &&
  !(infNanWord s)

/-- An id cell on which `astype('int64')` genuinely raises: it contains a
character that no numeric form accepts — outside digits, signs, decimal
point, exponent marks, underscore (Python `int()` digit grouping) and
whitespace — so the column loads as object (or the cell as `NaN` if it is a
missing-value sentinel) and the element-wise conversion fails; and it is not
a boolean literal (a whole column of those loads as bool and converts
silently). -/
def hardBad (s : String) : Bool :=
  !(s.toList.all (fun c => numericishCh c || isPySpace c || c == '_')) &&
  !(boolLits.contains (trimS s))


/-! # Shared helper lemmas -/

/-- A duplicate-free list whose members are exactly `x` is the singleton `[x]`. -/
theorem dedupSingleton (l : List String) (x : String)
    (hn : l.Nodup) (hm : ∀ a, a ∈ l ↔ a = x) : l = [x] := by
  cases l with
  | nil => exact absurd ((hm x).mpr rfl) (by simp)
  | cons a t =>
    have ha : a = x := (hm a).mp (by simp)
    cases t with
    | nil => rw [ha]
    | cons b t2 =>
      have hb : b = x := (hm b).mp (by simp)
      rw [ha, hb] at hn
      simp at hn

/-- `List.dedup` is a valid model of Python's `list(set(l))`. -/
theorem isDedup_listDedup : IsDedup List.dedup :=
  fun l => ⟨l.nodup_dedup, fun _ => List.mem_dedup⟩

/-- A tag translates to `none` exactly when it lies outside the vocabulary. -/
theorem translate_json_none_iff (t : String) :
    translate_json t = none ↔ t ∉ vocab := by
  unfold translate_json vocab
  split_ifs with h1 h2 h3 h4 <;> simp_all

/-- A tag of the vocabulary translates to some column key. -/
theorem translate_json_some_of_mem (t : String) (h : t ∈ vocab) :
    ∃ key, translate_json t = some key := by
  have h2 : t = "FIRMA" ∨ t = "POZITIF" ∨ t = "NEGATIF" ∨ t = "NOTR" := by
    simpa [vocab] using h
  rcases h2 with rfl | rfl | rfl | rfl
  · exact ⟨"company", rfl⟩
  · exact ⟨"positive", rfl⟩
  · exact ⟨"negative", rfl⟩
  · exact ⟨"notr", rfl⟩

/-- The tag returned as a `collectAnns` error lies outside the vocabulary. -/
theorem collectAnns_error_unknown :
    ∀ (anns : List Ann) (td : TempData) (t : String),
      collectAnns anns td = .error t → t ∉ vocab := by
  intro anns
  induction anns with
  | nil => intro td t h; simp [collectAnns] at h
  | cons a rest ih =>
    intro td t h
    cases htr : translate_json a.tag with
    | none =>
      simp [collectAnns, htr] at h
      rw [← h]
      exact (translate_json_none_iff _).mp htr
    | some key =>
      simp [collectAnns, htr] at h
      exact ih _ _ h

/-- An unknown tag among the annotations makes `collectAnns` fail with some
out-of-vocabulary tag. -/
theorem collectAnns_error_of_unknown :
    ∀ (anns : List Ann) (td : TempData),
      (∃ a ∈ anns, a.tag ∉ vocab) →
      ∃ t, collectAnns anns td = .error t ∧ t ∉ vocab := by
  intro anns
  induction anns with
  | nil => rintro td ⟨a, ha, _⟩; simp at ha
  | cons a rest ih =>
    rintro td ⟨b, hb, hbv⟩
    rcases List.mem_cons.mp hb with rfl | hbrest
    · have htr : translate_json b.tag = none := (translate_json_none_iff _).mpr hbv
      exact ⟨b.tag, by simp [collectAnns, htr], hbv⟩
    · cases htr : translate_json a.tag with
      | none => exact ⟨a.tag, by simp [collectAnns, htr], (translate_json_none_iff _).mp htr⟩
      | some key =>
        obtain ⟨t, ht, htv⟩ := ih (td.add key a.text) ⟨b, hbrest, hbv⟩
        exact ⟨t, by simp [collectAnns, htr, ht], htv⟩

/-- An unknown tag in any event of the batch makes the aggregation loop fail
with some out-of-vocabulary tag, whatever the accumulator. -/
theorem jsonToCsvLoop_error_of_unknown (dedup : List String → List String) :
    ∀ (events : List AnnotationEvent) (d : DfData),
      (∃ e ∈ events, ∃ a ∈ e.annotations, a.tag ∉ vocab) →
      ∃ t, jsonToCsvLoop dedup events d = .error t ∧ t ∉ vocab := by
  intro events
  induction events with
  | nil => rintro d ⟨e, he, _⟩; simp at he
  | cons e rest ih =>
    rintro d ⟨f, hf, hbad⟩
    rcases List.mem_cons.mp hf with rfl | hfrest
    · obtain ⟨t, ht, htv⟩ := collectAnns_error_of_unknown f.annotations TempData.empty hbad
      exact ⟨t, by simp [jsonToCsvLoop, ht], htv⟩
    · cases hcol : collectAnns e.annotations TempData.empty with
      | error t =>
        exact ⟨t, by simp [jsonToCsvLoop, hcol], collectAnns_error_unknown _ _ _ hcol⟩
      | ok td =>
        obtain ⟨t, ht, htv⟩ := ih
          { id := d.id ++ [e.page], text := d.text ++ [e.text]
            company := d.company ++ [finalizeCategory dedup td.company]
            positive := d.positive ++ [finalizeCategory dedup td.positive]
            negative := d.negative ++ [finalizeCategory dedup td.negative]
            notr := d.notr ++ [finalizeCategory dedup td.notr] }
          ⟨f, hfrest, hbad⟩
        exact ⟨t, by simp [jsonToCsvLoop, hcol, ht], htv⟩

/-- When every tag of the event list translates, `collectAnns` succeeds. -/
theorem collectAnns_ok_of_known :
    ∀ (anns : List Ann) (td : TempData),
      (∀ a ∈ anns, a.tag ∈ vocab) →
      ∃ td2, collectAnns anns td = .ok td2 := by
  intro anns
  induction anns with
  | nil => exact fun td _ => ⟨td, rfl⟩
  | cons a rest ih =>
    intro td h
    obtain ⟨key, hkey⟩ := translate_json_some_of_mem a.tag (h a (by simp))
    obtain ⟨td2, htd2⟩ := ih (td.add key a.text) (fun b hb => h b (by simp [hb]))
    exact ⟨td2, by simp [collectAnns, hkey, htd2]⟩

/-- Pointwise successful `mapExcept` over a mapped list. -/
theorem mapExcept_map_ok {α β γ δ : Type} (f : β → Except γ δ) (h0 : α → β) (g : α → δ) :
    ∀ l : List α, (∀ x ∈ l, f (h0 x) = .ok (g x)) → mapExcept f (l.map h0) = .ok (l.map g) := by
  intro l
  induction l with
  | nil => intro _; rfl
  | cons a rest ih =>
    intro h
    have ha := h a (by simp)
    have hrest := ih (fun x hx => h x (by simp [hx]))
    simp [mapExcept, ha, hrest]

/-- A failing element makes `mapExcept` fail. -/
theorem mapExcept_error_of_exists {α β γ : Type} (f : α → Except γ β) :
    ∀ l : List α, (∃ x ∈ l, ∃ e, f x = .error e) → ∃ e, mapExcept f l = .error e := by
  intro l
  induction l with
  | nil => rintro ⟨x, hx, _⟩; simp at hx
  | cons a rest ih =>
    rintro ⟨x, hx, e, he⟩
    cases hfa : f a with
    | error e2 => exact ⟨e2, by simp [mapExcept, hfa]⟩
    | ok b =>
      rcases List.mem_cons.mp hx with rfl | hxrest
      · rw [hfa] at he; exact absurd he (by simp)
      · obtain ⟨e3, he3⟩ := ih ⟨x, hxrest, e, he⟩
        exact ⟨e3, by simp [mapExcept, hfa, he3]⟩

/-- `parseCol` preserves the cell count. -/
theorem parseCol_length (cells : List String) : (parseCol cells).length = cells.length := by
  unfold parseCol
  split_ifs <;> simp

/-! # Claim theorems -/

/-- C1: if any event of the batch carries an annotation whose tag lies outside
the four-entry vocabulary, `json_to_csv` fails with that (out-of-vocabulary)
tag as the error and writes no output file at all, regardless of how many
other annotations or events are valid. -/
theorem C1_unknown_tag_aborts (dedup : List String → List String) (filename : Str)
    (events : List AnnotationEvent)
    (h : ∃ e ∈ events, ∃ a ∈ e.annotations, a.tag ∉ vocab) :
    (∃ t, json_to_csv dedup events = .error t ∧ t ∉ vocab) ∧
      jsonToCsvFiles dedup filename events = [] := by
  obtain ⟨t, ht, htv⟩ := jsonToCsvLoop_error_of_unknown dedup events DfData.empty h
  refine ⟨⟨t, ?_, htv⟩, ?_⟩
  · simp [json_to_csv, ht, Except.map]
  · simp [jsonToCsvFiles, json_to_csv, ht, Except.map]

/-- Witness for C1 at a concrete one-event batch with tag `BAD`. -/
theorem C1_unknown_tag_aborts_witness :
    (∃ t, json_to_csv List.dedup [⟨1, "t", [⟨"BAD", "x"⟩]⟩] = .error t ∧ t ∉ vocab) ∧
      jsonToCsvFiles List.dedup ("f.json".toList) [⟨1, "t", [⟨"BAD", "x"⟩]⟩] = [] :=
  C1_unknown_tag_aborts List.dedup ("f.json".toList) [⟨1, "t", [⟨"BAD", "x"⟩]⟩]
    ⟨⟨1, "t", [⟨"BAD", "x"⟩]⟩, by simp, ⟨"BAD", "x"⟩, by simp, by decide⟩

/-- C3: aggregating the spec's concrete single event yields exactly the row
`1, hello world, "", hello, world, ""` — the duplicate `POZITIF`/`hello`
annotation collapses to one copy and empty categories yield empty strings —
for every valid model of Python's set-based deduplication. -/
theorem C3_concrete_aggregation (dedup : List String → List String) (h : IsDedup dedup) :
    json_to_csv dedup [ev3] =
      .ok ⟨stdHeader, [["1", "hello world", "", "hello", "world", ""]]⟩ := by
  obtain ⟨hn1, hm1⟩ := h ["hello", "hello"]
  obtain ⟨hn2, hm2⟩ := h ["world"]
  have e1 : dedup ["hello", "hello"] = ["hello"] :=
    dedupSingleton _ _ hn1 (fun a => by simpa using hm1 a)
  have e2 : dedup ["world"] = ["world"] :=
    dedupSingleton _ _ hn2 (fun a => by simpa using hm2 a)
  have key : json_to_csv dedup [ev3] =
      .ok ⟨stdHeader, [[intStr 1, "hello world", "",
        String.intercalate "|" (dedup ["hello", "hello"]),
        String.intercalate "|" (dedup ["world"]), ""]]⟩ := rfl
  rw [key, e1, e2]
  rfl

/-- Witness for C3 with `List.dedup` as the deduplication model. -/
theorem C3_concrete_aggregation_witness :
    json_to_csv List.dedup [ev3] =
      .ok ⟨stdHeader, [["1", "hello world", "", "hello", "world", ""]]⟩ :=
  C3_concrete_aggregation List.dedup isDedup_listDedup

/-- C4 (code bug): for the spreadsheet file `data.xlsx` — which the upload
filter admits and the spec requires `data_cleaner` to load — the cleaner
returns the error response and writes nothing, whatever the file contents,
because the source tests the misspelled substring `'xslx'`. -/
theorem C4_xlsx_cleaning_fails (csvTexts xlsxTexts : List Str) :
    data_cleaner ("data.xlsx".toList) csvTexts xlsxTexts =
      ⟨false, none, []⟩ := rfl

/-- C5 counterexample: for the submission dataset `myxlsxfile.xlsx`, whose base
name contains `xlsx` as an interior substring, the derived aggregated-CSV name
is `mycsvfile.csv`, not the claimed `myxlsxfile.csv`: the base name is
rewritten, not preserved. -/
theorem C5_interior_substring_cex :
    csvNameOf (jsonNameOf ("myxlsxfile.xlsx".toList)) = "mycsvfile.csv".toList ∧
    csvNameOf (jsonNameOf ("myxlsxfile.xlsx".toList)) ≠ "myxlsxfile.csv".toList := by
  decide

/-- C6 counterexample: the cleaned dataset with the single row `(1, "012")`
round-trips through write/load/extract to `(1, "12")` — the text is re-typed
by column inference and its leading zero is lost — so extraction does not
return the original text value. -/
theorem C6_round_trip_cex :
    roundTrip [(1, "012")] = .ok [(1, some "12")] ∧
    roundTrip [(1, "012")] ≠ .ok [(1, some "012")] := by
  decide

/-- C7 counterexample: a successful aggregation export for dataset `data.csv`
writes exactly the submission JSON and the aggregated CSV; the spreadsheet
form `data.xlsx` is not among the files the export path writes. -/
theorem C7_no_xlsx_cex :
    (export_json List.dedup (some ("data.csv".toList)) (some [evC7])).written
        = ["data.json".toList, "data.csv".toList] ∧
    "data.xlsx".toList ∉
      (export_json List.dedup (some ("data.csv".toList)) (some [evC7])).written := by
  decide

/-- C7 amended: after a successful aggregation, the export endpoint has
written exactly the submission JSON file and the aggregated CSV — no
spreadsheet conversion is triggered on this path. -/
theorem C7_written_files (dedup : List String → List String) (ds : Str)
    (events : List AnnotationEvent) (hds : ds ≠ [])
    (csv : Csv) (hok : json_to_csv dedup events = .ok csv) :
    (export_json dedup (some ds) (some events)).written
      = [jsonNameOf ds, csvNameOf (jsonNameOf ds)] := by
  have hP : ¬((some ds = none ∨ some ds = some ([] : Str)) ∧
      ((some events : Option (List AnnotationEvent)) = none ∨ some events = some [])) := by
    rintro ⟨h1, _⟩
    rcases h1 with h | h
    · exact Option.noConfusion h
    · exact hds (Option.some.inj h)
  unfold export_json
  rw [if_neg hP]
  simp [hok]

/-- Witness for C7's amended statement at a concrete successful export. -/
theorem C7_written_files_witness :
    (export_json List.dedup (some ("data.csv".toList)) (some [evC7])).written
      = [jsonNameOf ("data.csv".toList), csvNameOf (jsonNameOf ("data.csv".toList))] :=
  C7_written_files List.dedup ("data.csv".toList) [evC7] (by decide)
    ⟨stdHeader, [["1", "t", "", "x", "", ""]]⟩ (by decide)

/-- An integer literal is made of numeric characters only. -/
theorem intLit_numericish (s : String) (h : isIntLit s = true) :
    s.toList.all numericishCh = true := by
  unfold isIntLit at h
  cases hs : s.toList with
  | nil => rw [hs] at h; simp [isIntLitL] at h
  | cons c0 cr =>
    rw [hs] at h
    simp only [isIntLitL] at h
    by_cases hm : (c0 == '-' || c0 == '+') = true
    · rw [if_pos hm] at h
      unfold isDigitStr at h
      rw [Bool.and_eq_true] at h
      rw [List.all_cons, Bool.and_eq_true]
      constructor
      · rw [Bool.or_eq_true] at hm
        rcases hm with h1 | h1
        · rw [beq_iff_eq] at h1
          subst h1
          decide
        · rw [beq_iff_eq] at h1
          subst h1
          decide
      · rw [List.all_eq_true]
        intro ch hch
        have := (List.all_eq_true.mp h.2) ch hch
        simp [numericishCh, this]
    · rw [if_neg hm] at h
      unfold isDigitStr at h
      rw [Bool.and_eq_true] at h
      rw [List.all_eq_true]
      intro ch hch
      have := (List.all_eq_true.mp h.2) ch hch
      simp [numericishCh, this]

/-- An id cell on which the element-wise conversion raises is in particular
not an integer literal. -/
theorem hardBad_not_intLit (c : String) (h : hardBad c = true) : isIntLit c = false := by
  cases hi : isIntLit c with
  | false => rfl
  | true =>
    exfalso
    unfold hardBad at h
    rw [Bool.and_eq_true] at h
    have h2 : c.toList.all (fun ch => numericishCh ch || isPySpace ch || ch == '_') = true := by
      rw [List.all_eq_true]
      intro ch hch
      have := (List.all_eq_true.mp (intLit_numericish c hi)) ch hch
      simp [this]
    rw [h2] at h
    simp at h

/-- C9 counterexample: the id cell `9223372036854775808` (2^63) has no
64-bit-integer value — it cannot be coerced to the declared type — yet
extraction does not fail: the column loads as uint64 and `astype('int64')`
silently wraps the value modulo 2^64 to the int64 minimum. -/
theorem C9_wrap_cex :
    extract_text_and_ids ⟨["9223372036854775808"], ["a"]⟩
      = .ok [(-(2 ^ 63 : Int), some "a")] ∧
    ¬(int64Min ≤ parseIntS "9223372036854775808" ∧
      parseIntS "9223372036854775808" ≤ int64Max) := by
  decide

/-- C9 amended: extraction coerces every id cell to a 64-bit integer and
every text cell to a string in file order — succeeding with one exact
`(id, text)` pair per row whenever all id cells are (optionally signed)
integer literals in int64 range — and fails with a coercion error whenever
some id cell contains a character no numeric form accepts and is not a
boolean literal.  It does not fail on every non-coercible value: the
counterexample shows an out-of-range integer literal silently wrapping. -/
theorem C9_extraction_coercion_amended (idCol textCol : List String)
    (hlen : idCol.length = textCol.length) :
    ((∀ c ∈ idCol, isIntLit c = true ∧ int64Min ≤ parseIntS c ∧ parseIntS c ≤ int64Max) →
      ∃ l, extract_text_and_ids ⟨idCol, textCol⟩ = .ok l ∧
        l.map Prod.fst = idCol.map parseIntS ∧
        l.map Prod.snd = (parseCol textCol).map coerceStrng ∧
        l.length = idCol.length) ∧
    ((∃ c ∈ idCol, hardBad c = true) →
      ∃ e, extract_text_and_ids ⟨idCol, textCol⟩ = .error e) := by
  constructor
  · intro h
    by_cases hnil : idCol = []
    · subst hnil
      have htc : textCol = [] := List.length_eq_zero.mp (by rw [← hlen]; rfl)
      subst htc
      exact ⟨[], by simp [extract_text_and_ids, parseCol, mapExcept], by simp,
        by simp [parseCol], by simp⟩
    · have hne : idCol.isEmpty = false := by
        cases idCol with
        | nil => exact absurd rfl hnil
        | cons a l => rfl
      have e1 : (!idCol.isEmpty) = true := by simp [hne]
      have e2 : idCol.all isIntLit = true := by
        rw [List.all_eq_true]
        intro x hx
        exact (h x hx).1
      have e3 : idCol.all inInt64 = true := by
        rw [List.all_eq_true]
        intro x hx
        simp only [inInt64, decide_eq_true_eq]
        exact ⟨(h x hx).2.1, (h x hx).2.2⟩
      have hall : (!idCol.isEmpty && idCol.all isIntLit && idCol.all inInt64) = true := by
        rw [e1, e2, e3]
        rfl
      have hpc : parseCol idCol = idCol.map (fun c => Cell.intv (parseIntS c)) := by
        unfold parseCol
        rw [if_pos hall]
      have hmapm : mapExcept coerceInt64 (idCol.map (fun c => Cell.intv (parseIntS c)))
          = .ok (idCol.map parseIntS) := by
        apply mapExcept_map_ok
        intro x hx
        simp [coerceInt64, (h x hx).2.1, (h x hx).2.2]
      refine ⟨(idCol.map parseIntS).zip ((parseCol textCol).map coerceStrng), ?_, ?_, ?_, ?_⟩
      · simp [extract_text_and_ids, hpc, hmapm]
      · apply List.map_fst_zip
        simp [parseCol_length, ← hlen]
      · apply List.map_snd_zip
        simp [parseCol_length, ← hlen]
      · simp [List.length_zip, parseCol_length, ← hlen]
  · rintro ⟨c, hc, hbad⟩
    have hnotlit : isIntLit c = false := hardBad_not_intLit c hbad
    have hallf : idCol.all isIntLit = false := by
      rw [List.all_eq_false]
      exact ⟨c, hc, by simp [hnotlit]⟩
    have hpc : parseCol idCol
        = idCol.map (fun c => if c = "" then Cell.na else Cell.strv c) := by
      unfold parseCol
      rw [if_neg (by simp [hallf]), if_neg (by simp [hallf])]
    have hcell : ∃ e0, coerceInt64 (if c = "" then Cell.na else Cell.strv c) = .error e0 := by
      by_cases hce : c = ""
      · exact ⟨"NA", by simp [hce, coerceInt64]⟩
      · exact ⟨c, by simp [hce, coerceInt64, hnotlit]⟩
    obtain ⟨e, he⟩ := mapExcept_error_of_exists coerceInt64
      (idCol.map (fun c => if c = "" then Cell.na else Cell.strv c))
      ⟨(if c = "" then Cell.na else Cell.strv c), List.mem_map_of_mem _ hc, hcell⟩
    exact ⟨e, by simp [extract_text_and_ids, hpc, he]⟩

/-- Witness for C9's amended statement: both conjuncts at concrete columns
(including a `+`-signed id literal). -/
theorem C9_extraction_coercion_amended_witness :
    (∃ l, extract_text_and_ids ⟨["1", "+2"], ["a", "b"]⟩ = .ok l ∧
      l.map Prod.fst = (["1", "+2"] : List String).map parseIntS ∧
      l.map Prod.snd = (parseCol ["a", "b"]).map coerceStrng ∧
      l.length = (["1", "+2"] : List String).length) ∧
    (∃ e, extract_text_and_ids ⟨["x"], ["a"]⟩ = .error e) :=
  ⟨(C9_extraction_coercion_amended ["1", "+2"] ["a", "b"] (by decide)).1 (by decide),
   (C9_extraction_coercion_amended ["x"] ["a"] (by decide)).2 ⟨"x", by simp, by decide⟩⟩

/-- C10: a submission with a nonempty `dataset` and missing or empty `data`
passes the validation guard (which rejects only when both fields are
absent/empty) and proceeds to write the derived JSON output file. -/
theorem C10_guard_conjunction (dedup : List String → List String) (ds : Str)
    (data : Option (List AnnotationEvent)) (hds : ds ≠ [])
    (hdata : data = none ∨ data = some []) :
    (export_json dedup (some ds) data).response ≠ ExportResponse.rejected ∧
    jsonNameOf ds ∈ (export_json dedup (some ds) data).written := by
  have hP : ¬((some ds = none ∨ some ds = some ([] : Str)) ∧
      (data = none ∨ data = some [])) := by
    rintro ⟨h1, _⟩
    rcases h1 with h | h
    · exact Option.noConfusion h
    · exact hds (Option.some.inj h)
  rcases hdata with h | h <;> subst h
  · unfold export_json
    rw [if_neg hP]
    simp
  · unfold export_json
    rw [if_neg hP]
    simp [json_to_csv, jsonToCsvLoop, DfData.empty, Except.map]

/-- Witness for C10 at dataset `a.csv` with absent data. -/
theorem C10_guard_conjunction_witness :
    (export_json List.dedup (some ("a.csv".toList)) none).response
        ≠ ExportResponse.rejected ∧
    jsonNameOf ("a.csv".toList) ∈ (export_json List.dedup (some ("a.csv".toList)) none).written :=
  C10_guard_conjunction List.dedup ("a.csv".toList) none (by decide) (Or.inl rfl)

/-! # C8: shape of the aggregated CSV -/

/-- Appending one value to each of six equal-length columns appends one row. -/
theorem zipCols_append :
    ∀ (is : List Int) (ts cs ps ns os : List String) (i : Int) (t c p n o : String),
      ts.length = is.length → cs.length = is.length → ps.length = is.length →
      ns.length = is.length → os.length = is.length →
      zipCols (is ++ [i]) (ts ++ [t]) (cs ++ [c]) (ps ++ [p]) (ns ++ [n]) (os ++ [o])
        = zipCols is ts cs ps ns os ++ [[intStr i, t, c, p, n, o]] := by
  intro is
  induction is with
  | nil =>
    intro ts cs ps ns os i t c p n o hts hcs hps hns hos
    obtain rfl := List.length_eq_zero.mp (by simpa using hts)
    obtain rfl := List.length_eq_zero.mp (by simpa using hcs)
    obtain rfl := List.length_eq_zero.mp (by simpa using hps)
    obtain rfl := List.length_eq_zero.mp (by simpa using hns)
    obtain rfl := List.length_eq_zero.mp (by simpa using hos)
    rfl
  | cons i0 is ih =>
    intro ts cs ps ns os i t c p n o hts hcs hps hns hos
    cases ts with
    | nil => simp at hts
    | cons t0 ts =>
      cases cs with
      | nil => simp at hcs
      | cons c0 cs =>
        cases ps with
        | nil => simp at hps
        | cons p0 ps =>
          cases ns with
          | nil => simp at hns
          | cons n0 ns =>
            cases os with
            | nil => simp at hos
            | cons o0 os =>
              simp only [List.cons_append, zipCols, List.append_eq]
              rw [ih ts cs ps ns os i t c p n o (by simpa using hts) (by simpa using hcs)
                (by simpa using hps) (by simpa using hns) (by simpa using hos)]

/-- On a batch whose tags all translate, the aggregation loop succeeds and
extends the accumulated rows by exactly one row per event, in order. -/
theorem jsonToCsvLoop_ok_rows (dedup : List String → List String) :
    ∀ (events : List AnnotationEvent) (d : DfData),
      (∀ e ∈ events, ∀ a ∈ e.annotations, a.tag ∈ vocab) →
      BalancedDf d →
      ∃ d2, jsonToCsvLoop dedup events d = .ok d2 ∧ BalancedDf d2 ∧
        zipCols d2.id d2.text d2.company d2.positive d2.negative d2.notr
          = zipCols d.id d.text d.company d.positive d.negative d.notr
            ++ events.map (eventRow dedup) := by
  intro events
  induction events with
  | nil => exact fun d _ hb => ⟨d, rfl, hb, by simp⟩
  | cons e rest ih =>
    intro d h hb
    obtain ⟨td, htd⟩ := collectAnns_ok_of_known e.annotations TempData.empty
      (fun a ha => h e (by simp) a ha)
    have hco : collectedOf e = td := by simp [collectedOf, htd]
    obtain ⟨h1, h2, h3, h4, h5⟩ := hb
    have hb1 : BalancedDf
        { id := d.id ++ [e.page], text := d.text ++ [e.text],
          company := d.company ++ [finalizeCategory dedup td.company],
          positive := d.positive ++ [finalizeCategory dedup td.positive],
          negative := d.negative ++ [finalizeCategory dedup td.negative],
          notr := d.notr ++ [finalizeCategory dedup td.notr] } := by
      simp [BalancedDf, h1, h2, h3, h4, h5]
    obtain ⟨d2, hd2, hb2, hzip⟩ := ih
      { id := d.id ++ [e.page], text := d.text ++ [e.text],
        company := d.company ++ [finalizeCategory dedup td.company],
        positive := d.positive ++ [finalizeCategory dedup td.positive],
        negative := d.negative ++ [finalizeCategory dedup td.negative],
        notr := d.notr ++ [finalizeCategory dedup td.notr] }
      (fun f hf a ha => h f (by simp [hf]) a ha) hb1
    refine ⟨d2, ?_, hb2, ?_⟩
    · simp only [jsonToCsvLoop, htd]
      exact hd2
    · rw [hzip]
      have hz1 : zipCols (d.id ++ [e.page]) (d.text ++ [e.text])
            (d.company ++ [finalizeCategory dedup td.company])
            (d.positive ++ [finalizeCategory dedup td.positive])
            (d.negative ++ [finalizeCategory dedup td.negative])
            (d.notr ++ [finalizeCategory dedup td.notr])
          = zipCols d.id d.text d.company d.positive d.negative d.notr
            ++ [eventRow dedup e] := by
        rw [zipCols_append d.id d.text d.company d.positive d.negative d.notr
          _ _ _ _ _ _ h1 h2 h3 h4 h5]
        simp [eventRow, hco]
      simp only [hz1]
      simp

/-- C8: for a submission whose tags are all in the vocabulary, the aggregated
CSV has exactly the header `id,text,company,positive,negative,notr` in that
order and one row per submitted event — its page and text in front — in
submission order (not one row per unique page). -/
theorem C8_csv_shape (dedup : List String → List String) (events : List AnnotationEvent)
    (h : ∀ e ∈ events, ∀ a ∈ e.annotations, a.tag ∈ vocab) :
    ∃ csv, json_to_csv dedup events = .ok csv ∧
      csv.header = stdHeader ∧
      csv.rows = events.map (eventRow dedup) ∧
      csv.rows.length = events.length := by
  obtain ⟨d2, hd2, _, hzip⟩ := jsonToCsvLoop_ok_rows dedup events DfData.empty h
    ⟨rfl, rfl, rfl, rfl, rfl⟩
  have hrows : (dfToCsv d2).rows = events.map (eventRow dedup) := by
    simpa [dfToCsv, DfData.empty, zipCols] using hzip
  refine ⟨dfToCsv d2, ?_, rfl, hrows, ?_⟩
  · simp [json_to_csv, hd2, Except.map]
  · rw [hrows, List.length_map]

/-- Witness for C8 at a concrete two-event submission sharing a page. -/
theorem C8_csv_shape_witness :
    ∃ csv, json_to_csv List.dedup
        [⟨2, "tt", [⟨"FIRMA", "acme"⟩]⟩, ⟨2, "tt", []⟩] = .ok csv ∧
      csv.header = stdHeader ∧
      csv.rows = ([⟨2, "tt", [⟨"FIRMA", "acme"⟩]⟩, ⟨2, "tt", []⟩] :
          List AnnotationEvent).map (eventRow List.dedup) ∧
      csv.rows.length = ([⟨2, "tt", [⟨"FIRMA", "acme"⟩]⟩, ⟨2, "tt", []⟩] :
          List AnnotationEvent).length :=
  C8_csv_shape List.dedup [⟨2, "tt", [⟨"FIRMA", "acme"⟩]⟩, ⟨2, "tt", []⟩] (by decide)

/-! # C5: filename derivation -/

/-- Every list is a prefix of itself. -/
theorem pfx_refl : ∀ l : Str, pfx l l = true := by
  intro l
  induction l with
  | nil => rfl
  | cons a l ih => simp [pfx, ih]

/-- A prefix of `u ++ v` is a prefix of `u` or covers `u` entirely. -/
theorem pfx_append_cases :
    ∀ (u pat v : Str), pfx pat (u ++ v) = true →
      pfx pat u = true ∨ ∃ q, pat = u ++ q ∧ pfx q v = true := by
  intro u
  induction u with
  | nil => exact fun pat v h => Or.inr ⟨pat, rfl, h⟩
  | cons a u ih =>
    intro pat v h
    cases pat with
    | nil => exact Or.inl rfl
    | cons p ps =>
      simp only [List.cons_append, pfx, Bool.and_eq_true, beq_iff_eq] at h
      obtain ⟨rfl, h2⟩ := h
      rcases ih ps v h2 with h3 | ⟨q, rfl, h4⟩
      · exact Or.inl (by simp [pfx, h3])
      · exact Or.inr ⟨q, by simp, h4⟩

/-- `pyReplaceF` ignores fuel on the empty string. -/
theorem pyReplaceF_nil (pat rep : Str) : ∀ fuel, pyReplaceF fuel pat rep [] = [] := by
  intro fuel
  cases fuel <;> rfl

/-- Fuel is irrelevant once it covers the input length (nonempty pattern). -/
theorem pyReplaceF_fuelIrrel (pat rep : Str) (hpat : pat ≠ []) :
    ∀ (f1 : Nat) (s : Str) (f2 : Nat), s.length ≤ f1 → s.length ≤ f2 →
      pyReplaceF f1 pat rep s = pyReplaceF f2 pat rep s := by
  intro f1
  induction f1 with
  | zero =>
    intro s f2 h1 _
    obtain rfl : s = [] := List.eq_nil_of_length_eq_zero (Nat.le_zero.mp h1)
    rw [pyReplaceF_nil, pyReplaceF_nil]
  | succ f1 ih =>
    intro s f2 h1 h2
    cases s with
    | nil => rw [pyReplaceF_nil, pyReplaceF_nil]
    | cons c rest =>
      cases f2 with
      | zero => simp at h2
      | succ f2 =>
        have hplen : 1 ≤ pat.length := List.length_pos.mpr hpat
        simp only [pyReplaceF]
        by_cases hp : pfx pat (c :: rest) = true
        · rw [if_pos hp, if_pos hp]
          have hd : ((c :: rest).drop pat.length).length ≤ f1 := by
            simp only [List.length_drop, List.length_cons]
            simp only [List.length_cons] at h1
            omega
          have hd2 : ((c :: rest).drop pat.length).length ≤ f2 := by
            simp only [List.length_drop, List.length_cons]
            simp only [List.length_cons] at h2
            omega
          rw [ih _ f2 hd hd2]
        · rw [if_neg hp, if_neg hp]
          have hr : rest.length ≤ f1 := by simp at h1; omega
          have hr2 : rest.length ≤ f2 := by simp at h2; omega
          rw [ih _ f2 hr hr2]

/-- One-step unfolding of `pyReplace` on a cons cell. -/
theorem pyReplace_cons (pat rep : Str) (hpat : pat ≠ []) (c : Char) (rest : Str) :
    pyReplace pat rep (c :: rest) =
      if pfx pat (c :: rest) = true then
        rep ++ pyReplace pat rep ((c :: rest).drop pat.length)
      else c :: pyReplace pat rep rest := by
  have hplen : 1 ≤ pat.length := List.length_pos.mpr hpat
  show pyReplaceF (rest.length + 1) pat rep (c :: rest) = _
  simp only [pyReplaceF]
  by_cases hp : pfx pat (c :: rest) = true
  · rw [if_pos hp, if_pos hp]
    have hd : ((c :: rest).drop pat.length).length ≤ rest.length := by
      simp only [List.length_drop, List.length_cons]
      omega
    rw [pyReplaceF_fuelIrrel pat rep hpat rest.length _ _ hd (Nat.le_refl _)]
    rfl
  · rw [if_neg hp, if_neg hp]
    rfl

/-- Scanning a segment free of the (dot-free) pattern, followed by a dot,
copies the segment unchanged. -/
theorem pyReplace_clean_append (pat rep : Str) (hpat : pat ≠ [])
    (hdot : '.' ∉ pat) :
    ∀ (b e : Str), occursIn b pat = false →
      pyReplace pat rep (b ++ '.' :: e) = b ++ pyReplace pat rep ('.' :: e) := by
  intro b
  induction b with
  | nil => intro e _; rfl
  | cons c b ih =>
    intro e hb
    have hocc : pfx pat (c :: b) = false ∧ occursIn b pat = false := by
      unfold occursIn at hb
      exact ⟨by cases h : pfx pat (c :: b) with
              | false => rfl
              | true => rw [h] at hb; simp at hb,
             by cases h : occursIn b pat with
              | false => rfl
              | true => rw [h] at hb; simp at hb⟩
    have hnp : pfx pat ((c :: b) ++ '.' :: e) = false := by
      cases hp : pfx pat ((c :: b) ++ '.' :: e) with
      | false => rfl
      | true =>
        exfalso
        rcases pfx_append_cases (c :: b) pat ('.' :: e) hp with h3 | ⟨q, rfl, h4⟩
        · rw [hocc.1] at h3; exact Bool.noConfusion h3
        · cases q with
          | nil =>
            rw [List.append_nil] at hocc
            rw [pfx_refl] at hocc
            exact Bool.noConfusion hocc.1
          | cons q0 qs =>
            simp only [pfx, Bool.and_eq_true, beq_iff_eq] at h4
            exact hdot (by rw [h4.1]; exact List.mem_append_right _ (by simp))
    rw [List.cons_append, pyReplace_cons pat rep hpat c (b ++ '.' :: e)]
    rw [if_neg (by rw [← List.cons_append]; rw [hnp]; exact Bool.noConfusion)]
    rw [ih e hocc.2]
    rfl

/-- C5 amended: the derivation acts by global substring replacement
(`xlsx`,`csv` to `json`, then `json` to `csv`, then `csv` to `xlsx`), so for a
dataset whose base name contains none of `csv`, `xlsx`, `json` the aggregated
filename is the base name with the extension replaced by `.csv`, and its
spreadsheet mirror is the base name with `.xlsx`. -/
theorem C5_filename_derivation_amended (b : Str)
    (h1 : occursIn b ("csv".toList) = false)
    (h2 : occursIn b ("xlsx".toList) = false)
    (h3 : occursIn b ("json".toList) = false) :
    csvNameOf (jsonNameOf (b ++ ".csv".toList)) = b ++ ".csv".toList ∧
    csvNameOf (jsonNameOf (b ++ ".xlsx".toList)) = b ++ ".csv".toList ∧
    xlsxNameOf (csvNameOf (jsonNameOf (b ++ ".xlsx".toList))) = b ++ ".xlsx".toList := by
  have ecsv : (".csv".toList : Str) = '.' :: "csv".toList := rfl
  have exlsx : (".xlsx".toList : Str) = '.' :: "xlsx".toList := rfl
  have ejson : (".json".toList : Str) = '.' :: "json".toList := rfl
  have hcsv_ne : ("csv".toList : Str) ≠ [] := by decide
  have hxlsx_ne : ("xlsx".toList : Str) ≠ [] := by decide
  have hjson_ne : ("json".toList : Str) ≠ [] := by decide
  have hcsv_dot : '.' ∉ ("csv".toList : Str) := by decide
  have hxlsx_dot : '.' ∉ ("xlsx".toList : Str) := by decide
  have hjson_dot : '.' ∉ ("json".toList : Str) := by decide
  have s1 : jsonNameOf (b ++ ".csv".toList) = b ++ ".json".toList := by
    unfold jsonNameOf
    rw [ecsv, pyReplace_clean_append _ _ hxlsx_ne hxlsx_dot b _ h2]
    have : pyReplace ("xlsx".toList) ("json".toList) ('.' :: "csv".toList)
        = '.' :: "csv".toList := by decide
    rw [this, pyReplace_clean_append _ _ hcsv_ne hcsv_dot b _ h1]
    have : pyReplace ("csv".toList) ("json".toList) ('.' :: "csv".toList)
        = '.' :: "json".toList := by decide
    rw [this, ejson]
  have s2 : jsonNameOf (b ++ ".xlsx".toList) = b ++ ".json".toList := by
    unfold jsonNameOf
    rw [exlsx, pyReplace_clean_append _ _ hxlsx_ne hxlsx_dot b _ h2]
    have : pyReplace ("xlsx".toList) ("json".toList) ('.' :: "xlsx".toList)
        = '.' :: "json".toList := by decide
    rw [this, pyReplace_clean_append _ _ hcsv_ne hcsv_dot b _ h1]
    have : pyReplace ("csv".toList) ("json".toList) ('.' :: "json".toList)
        = '.' :: "json".toList := by decide
    rw [this, ejson]
  have s3 : csvNameOf (b ++ ".json".toList) = b ++ ".csv".toList := by
    unfold csvNameOf
    rw [ejson, pyReplace_clean_append _ _ hjson_ne hjson_dot b _ h3]
    have : pyReplace ("json".toList) ("csv".toList) ('.' :: "json".toList)
        = '.' :: "csv".toList := by decide
    rw [this, ecsv]
  have s4 : xlsxNameOf (b ++ ".csv".toList) = b ++ ".xlsx".toList := by
    unfold xlsxNameOf
    rw [ecsv, pyReplace_clean_append _ _ hcsv_ne hcsv_dot b _ h1]
    have : pyReplace ("csv".toList) ("xlsx".toList) ('.' :: "csv".toList)
        = '.' :: "xlsx".toList := by decide
    rw [this, exlsx]
  exact ⟨by rw [s1, s3], by rw [s2, s3], by rw [s2, s3, s4]⟩

/-- Witness for C5's amended statement at base name `report`. -/
theorem C5_filename_derivation_amended_witness :
    csvNameOf (jsonNameOf ("report".toList ++ ".csv".toList))
        = "report".toList ++ ".csv".toList ∧
    csvNameOf (jsonNameOf ("report".toList ++ ".xlsx".toList))
        = "report".toList ++ ".csv".toList ∧
    xlsxNameOf (csvNameOf (jsonNameOf ("report".toList ++ ".xlsx".toList)))
        = "report".toList ++ ".xlsx".toList :=
  C5_filename_derivation_amended ("report".toList) (by decide) (by decide) (by decide)

/-! # C6: cleaned-dataset round trip -/

/-- Digit strings produced with enough fuel are nonempty all-digit strings
whose value is the input. -/
theorem natDigitsF_spec :
    ∀ (fuel n : Nat), n < fuel →
      (natDigitsF fuel n).all isDigitCh = true ∧
      parseNatL (natDigitsF fuel n) = n ∧ natDigitsF fuel n ≠ [] := by
  intro fuel
  induction fuel with
  | zero => intro n h; omega
  | succ fuel ih =>
    intro n h
    by_cases h10 : n < 10
    · simp only [natDigitsF, if_pos h10]
      refine ⟨?_, ?_, by simp⟩
      · interval_cases n <;> decide
      · interval_cases n <;> decide
    · simp only [natDigitsF, if_neg h10]
      have hdiv : n / 10 < fuel := by
        have := Nat.div_lt_self (show 0 < n by omega) (show 1 < 10 by omega)
        omega
      obtain ⟨hall, hval, hne⟩ := ih (n / 10) hdiv
      have hmod : n % 10 < 10 := Nat.mod_lt _ (by omega)
      have hdig : isDigitCh (digitCh (n % 10)) = true := by
        set m := n % 10 with hm
        interval_cases m <;> decide
      have hdv : digitVal (digitCh (n % 10)) = n % 10 := by
        set m := n % 10 with hm
        interval_cases m <;> decide
      refine ⟨?_, ?_, by simp⟩
      · rw [List.all_append]
        simp [hall, hdig]
      · unfold parseNatL
        rw [List.foldl_append]
        simp only [List.foldl_cons, List.foldl_nil]
        unfold parseNatL at hval
        rw [hval, hdv]
        omega

/-- The decimal digits of `n` are all digit characters. -/
theorem natDigits_all_digits (n : Nat) : (natDigits n).all isDigitCh = true :=
  (natDigitsF_spec (n + 1) n (by omega)).1

/-- Parsing the decimal digits of `n` recovers `n`. -/
theorem parseNatL_natDigits (n : Nat) : parseNatL (natDigits n) = n :=
  (natDigitsF_spec (n + 1) n (by omega)).2.1

/-- The decimal digits of `n` form a nonempty string. -/
theorem natDigits_ne_nil (n : Nat) : natDigits n ≠ [] :=
  (natDigitsF_spec (n + 1) n (by omega)).2.2

/-- A digit character is not a sign character. -/
theorem digit_ne_sign (c : Char) (h : isDigitCh c = true) :
    (c == '-' || c == '+') = false := by
  cases hb : c == '-' with
  | false =>
    cases hp : c == '+' with
    | false => rfl
    | true =>
      exfalso
      rw [beq_iff_eq] at hp
      subst hp
      simp [isDigitCh] at h
  | true =>
    exfalso
    rw [beq_iff_eq] at hb
    subst hb
    simp [isDigitCh] at h

/-- The decimal form of an integer is an integer literal. -/
theorem intStr_lit (n : Int) : isIntLit (intStr n) = true := by
  show isIntLitL (intStrL n) = true
  unfold intStrL
  by_cases hn : n < 0
  · rw [if_pos hn]
    have hds : isDigitStr (natDigits n.natAbs) = true := by
      unfold isDigitStr
      cases hnd : natDigits n.natAbs with
      | nil => exact absurd hnd (natDigits_ne_nil _)
      | cons d ds =>
        have := natDigits_all_digits n.natAbs
        rw [hnd] at this
        simp [this]
    show (if (('-' == '-' || '-' == '+') = true) then isDigitStr (natDigits n.natAbs)
      else isDigitStr ('-' :: natDigits n.natAbs)) = true
    rw [if_pos (by decide)]
    exact hds
  · rw [if_neg hn]
    cases hnd : natDigits n.natAbs with
    | nil => exact absurd hnd (natDigits_ne_nil _)
    | cons d ds =>
      have hall := natDigits_all_digits n.natAbs
      rw [hnd] at hall
      have hd : isDigitCh d = true := by
        have h2 := hall
        rw [List.all_cons, Bool.and_eq_true] at h2
        exact h2.1
      show (if ((d == '-' || d == '+') = true) then isDigitStr ds
        else isDigitStr (d :: ds)) = true
      rw [if_neg (by rw [digit_ne_sign d hd]; exact Bool.noConfusion)]
      unfold isDigitStr
      simp [hall]

/-- Parsing the decimal form of an integer recovers it. -/
theorem parseIntS_intStr (n : Int) : parseIntS (intStr n) = n := by
  show parseIntL (intStrL n) = n
  unfold intStrL
  by_cases hn : n < 0
  · rw [if_pos hn]
    show (if (('-' == '-') = true) then -(parseNatL (natDigits n.natAbs) : Int)
      else if (('-' == '+') = true) then (parseNatL (natDigits n.natAbs) : Int)
      else (parseNatL ('-' :: natDigits n.natAbs) : Int)) = n
    rw [if_pos (by decide)]
    rw [parseNatL_natDigits]
    omega
  · rw [if_neg hn]
    cases hnd : natDigits n.natAbs with
    | nil => exact absurd hnd (natDigits_ne_nil _)
    | cons d ds =>
      have hall := natDigits_all_digits n.natAbs
      rw [hnd] at hall
      have hd : isDigitCh d = true := by
        have h2 := hall
        rw [List.all_cons, Bool.and_eq_true] at h2
        exact h2.1
      have hsign := digit_ne_sign d hd
      rw [Bool.or_eq_false_iff] at hsign
      show (if ((d == '-') = true) then -(parseNatL ds : Int)
        else if ((d == '+') = true) then (parseNatL ds : Int)
        else (parseNatL (d :: ds) : Int)) = n
      rw [if_neg (by rw [hsign.1]; exact Bool.noConfusion),
        if_neg (by rw [hsign.2]; exact Bool.noConfusion)]
      have := parseNatL_natDigits n.natAbs
      rw [hnd] at this
      rw [this]
      omega

/-- A safe text is not an integer literal. -/
theorem textSafe_not_intLit (s : String) (h : textSafe s = true) : isIntLit s = false := by
  cases hi : isIntLit s with
  | false => rfl
  | true =>
    exfalso
    have hnum : s.toList.all (fun c => numericishCh c || isPySpace c) = true := by
      rw [List.all_eq_true]
      intro c hc
      have := (List.all_eq_true.mp (intLit_numericish s hi)) c hc
      simp [this]
    unfold textSafe at h
    rw [hnum] at h
    simp at h

/-- A safe text is not the empty string. -/
theorem textSafe_ne_empty (s : String) (h : textSafe s = true) : s ≠ "" := by
  intro he
  subst he
  exact absurd h (by decide)

/-- Zipping two maps over the same list is one map producing pairs. -/
theorem zip_map_same {α β γ : Type} (f : α → β) (g : α → γ) :
    ∀ l : List α, (l.map f).zip (l.map g) = l.map (fun a => (f a, g a)) := by
  intro l
  induction l with
  | nil => rfl
  | cons a rest ih => simp [ih]

/-- C6 amended: the write/load/extract round trip returns exactly the
original `(id, text)` pairs provided every id is in int64 range and every
text is a safe string — nonempty, not a numeric literal, and not one of the
boolean/NA literals the loader's type inference re-types (the counterexample
shows the round trip fails outside this domain). -/
theorem C6_round_trip_amended (rows : List (Int × String))
    (hid : ∀ p ∈ rows, int64Min ≤ p.1 ∧ p.1 ≤ int64Max)
    (htext : ∀ p ∈ rows, textSafe p.2 = true) :
    roundTrip rows = .ok (rows.map (fun p => (p.1, some p.2))) := by
  cases hrows : rows with
  | nil => rfl
  | cons r0 rtl =>
    rw [← hrows]
    have hne : rows ≠ [] := by rw [hrows]; exact List.cons_ne_nil _ _
    have hidcond : (!(rows.map (fun p => intStr p.1)).isEmpty
        && (rows.map (fun p => intStr p.1)).all isIntLit
        && (rows.map (fun p => intStr p.1)).all inInt64) = true := by
      have e1 : (!(rows.map (fun p => intStr p.1)).isEmpty) = true := by
        rw [hrows]; rfl
      have e2 : (rows.map (fun p => intStr p.1)).all isIntLit = true := by
        rw [List.all_eq_true]
        intro x hx
        obtain ⟨p, _, rfl⟩ := List.mem_map.mp hx
        exact intStr_lit p.1
      have e3 : (rows.map (fun p => intStr p.1)).all inInt64 = true := by
        rw [List.all_eq_true]
        intro x hx
        obtain ⟨p, hp, rfl⟩ := List.mem_map.mp hx
        simp only [inInt64, decide_eq_true_eq, parseIntS_intStr]
        exact ⟨(hid p hp).1, (hid p hp).2⟩
      rw [e1, e2, e3]
      rfl
    have hidcol : parseCol (rows.map (fun p => intStr p.1))
        = rows.map (fun p => Cell.intv (parseIntS (intStr p.1))) := by
      unfold parseCol
      rw [if_pos hidcond, List.map_map]
      rfl
    have hmapex : mapExcept coerceInt64
        (rows.map (fun p => Cell.intv (parseIntS (intStr p.1))))
        = .ok (rows.map (fun p => p.1)) := by
      apply mapExcept_map_ok
      intro p hp
      rw [parseIntS_intStr]
      simp [coerceInt64, (hid p hp).1, (hid p hp).2]
    have htextcond : (rows.map (fun p => p.2)).all isIntLit = false := by
      rw [List.all_eq_false]
      refine ⟨r0.2, List.mem_map_of_mem _ (by rw [hrows]; simp), ?_⟩
      simp [textSafe_not_intLit r0.2 (htext r0 (by rw [hrows]; simp))]
    have htcol : parseCol (rows.map (fun p => p.2))
        = rows.map (fun p => Cell.strv p.2) := by
      unfold parseCol
      rw [if_neg (by simp [htextcond]), if_neg (by simp [htextcond])]
      rw [List.map_map]
      apply List.map_congr_left
      intro p hp
      simp only [Function.comp]
      rw [if_neg (textSafe_ne_empty p.2 (htext p hp))]
    show extract_text_and_ids ⟨rows.map (fun p => intStr p.1), rows.map (fun p => p.2)⟩ = _
    unfold extract_text_and_ids
    rw [hidcol, hmapex, htcol]
    simp only [List.map_map, Function.comp_def]
    rw [zip_map_same (fun p => p.1) (fun p => coerceStrng (Cell.strv p.2)) rows]
    rfl

/-- Witness for C6's amended statement at a concrete two-row dataset. -/
theorem C6_round_trip_amended_witness :
    roundTrip [(1, "hello"), (2, "wor ld")]
      = .ok ([(1, "hello"), (2, "wor ld")].map (fun p => (p.1, some p.2))) :=
  C6_round_trip_amended [(1, "hello"), (2, "wor ld")] (by decide) (by decide)

/-! # C2: idempotence of the normalization pipeline -/

/-- C2 counterexample: normalizing `a 1 b` yields `a  b` (digit removal runs
after whitespace collapsing and leaves both neighbouring spaces), and a second
normalization collapses the double space to `a b`, so normalization is not
idempotent. -/
theorem C2_idempotence_cex :
    normalizeText ("a 1 b".toList) = "a  b".toList ∧
    normalizeText (normalizeText ("a 1 b".toList)) = "a b".toList ∧
    normalizeText (normalizeText ("a 1 b".toList)) ≠ normalizeText ("a 1 b".toList) := by
  decide

/-- A map whose function fixes every element of the list is the identity. -/
theorem mapIdOfAll {α : Type} (f : α → α) (l : List α)
    (h : ∀ c ∈ l, f c = c) : l.map f = l :=
  (List.map_congr_left h).trans (List.map_id l)

/-- Pointwise weakening of `List.all`. -/
theorem allWeaken (p q : Char → Bool) (himp : ∀ c, p c = true → q c = true) :
    ∀ l : Str, l.all p = true → l.all q = true := by
  intro l h
  rw [List.all_eq_true] at h ⊢
  exact fun c hc => himp c (h c hc)

/-- Numeric reading of `lowSp`. -/
theorem lowSp_nat (c : Char) (h : lowSp c = true) :
    (97 ≤ c.toNat ∧ c.toNat ≤ 122) ∨ c.toNat = 32 := by
  simp [lowSp, isLowerCh] at h
  exact h

/-- A character whose code is 32 is the space character. -/
theorem char32_eq_space (c : Char) (h : c.toNat = 32) : c = ' ' := by
  have := Char.ofNat_toNat c
  rw [h] at this
  rw [← this]

/-- `pyLower` fixes lowercase letters and spaces. -/
theorem pyLower_id (c : Char) (h : lowSp c = true) : pyLower c = c := by
  have hn := lowSp_nat c h
  have hu : isUpperCh c = false := by
    simp [isUpperCh]
    omega
  unfold pyLower
  rw [hu]
  simp

/-- `turkishTrans` fixes every character with code at most 122. -/
theorem turkishTrans_id (c : Char) (h : c.toNat ≤ 122) : turkishTrans c = c := by
  have ne : ∀ d : Char, 122 < d.toNat → (c == d) = false := by
    intro d hd
    cases hcd : c == d with
    | false => rfl
    | true =>
      exfalso
      rw [beq_iff_eq] at hcd
      subst hcd
      omega
  unfold turkishTrans
  rw [ne 'ğ' (by decide), ne 'Ğ' (by decide), ne 'ı' (by decide), ne 'İ' (by decide),
    ne 'ö' (by decide), ne 'Ö' (by decide), ne 'ü' (by decide), ne 'Ü' (by decide),
    ne 'ş' (by decide), ne 'Ş' (by decide), ne 'ç' (by decide), ne 'Ç' (by decide)]
  simp

/-- `joinSp` on a single word is the word. -/
theorem joinSp_single (w : Str) : joinSp [w] = w := by
  simp [joinSp, List.intersperse]

/-- `joinSp` on two or more words starts with the first word and a space. -/
theorem joinSp_cons (w w2 : Str) (ws : List Str) :
    joinSp (w :: w2 :: ws) = w ++ ' ' :: joinSp (w2 :: ws) := by
  simp [joinSp, List.intersperse]

/-- All characters of a space-join satisfy a predicate that holds of the
space and of every word character. -/
theorem joinSp_all (p : Char → Bool) (hsp : p ' ' = true) :
    ∀ ws : List Str, (∀ w ∈ ws, w.all p = true) → (joinSp ws).all p = true := by
  intro ws
  induction ws with
  | nil => intro _; rfl
  | cons w ws ih =>
    intro h
    cases ws with
    | nil =>
      rw [joinSp_single]
      exact h w (by simp)
    | cons w2 ws2 =>
      rw [joinSp_cons, List.all_append]
      rw [Bool.and_eq_true]
      refine ⟨h w (by simp), ?_⟩
      rw [List.all_cons, Bool.and_eq_true]
      exact ⟨hsp, ih (fun v hv => h v (by simp [hv]))⟩

/-- A list of characters all satisfying `p` contains no character violating it. -/
theorem contains_false_of_all (w : Str) (p : Char → Bool) (x : Char)
    (h : w.all p = true) (hx : p x = false) : w.contains x = false := by
  induction w with
  | nil => rfl
  | cons c w ih =>
    rw [List.all_cons, Bool.and_eq_true] at h
    show List.elem x (c :: w) = false
    rw [List.elem_cons]
    cases hxc : x == c with
    | false => exact ih h.2
    | true =>
      exfalso
      rw [beq_iff_eq] at hxc
      subst hxc
      rw [h.1] at hx
      exact Bool.noConfusion hx

/-- Lowercase words pass the `#`/`@` token filter. -/
theorem keepTok_of_lower (w : Str) (h : w.all isLowerCh = true) : keepTok w = true := by
  unfold keepTok
  have h1 : w.contains '#' = false :=
    contains_false_of_all w isLowerCh '#' h (by decide)
  have h2 : w.contains '@' = false :=
    contains_false_of_all w isLowerCh '@' h (by decide)
  rw [h1, h2]
  rfl

/-- The split scanner passes over a whitespace-free segment, accumulating it. -/
theorem splitWsAux_nonspace :
    ∀ (w s acc : Str), w.all (fun c => !isPySpace c) = true →
      splitWsAux (w ++ s) acc = splitWsAux s (w.reverse ++ acc) := by
  intro w
  induction w with
  | nil => intro s acc _; rfl
  | cons c w ih =>
    intro s acc hall
    rw [List.all_cons, Bool.and_eq_true] at hall
    have hc : isPySpace c = false := by
      have := hall.1
      cases hic : isPySpace c with
      | false => rfl
      | true => rw [hic] at this; exact Bool.noConfusion this
    simp only [List.cons_append, splitWsAux, List.append_eq]
    rw [if_neg (by rw [hc]; exact Bool.noConfusion)]
    rw [ih s (c :: acc) hall.2]
    congr 1
    simp

/-- Lowercase characters are not Python whitespace. -/
theorem lower_not_space (c : Char) (h : isLowerCh c = true) : (!isPySpace c) = true := by
  simp [isLowerCh] at h
  simp [isPySpace]
  omega

/-- Splitting a space-join of nonempty whitespace-free words recovers the words. -/
theorem splitWs_joinSp :
    ∀ ws : List Str, (∀ w ∈ ws, w ≠ [] ∧ w.all (fun c => !isPySpace c) = true) →
      splitWs (joinSp ws) = ws := by
  intro ws
  induction ws with
  | nil => intro _; rfl
  | cons w ws ih =>
    intro h
    obtain ⟨hw, hwall⟩ := h w (by simp)
    have hwrev : w.reverse.isEmpty = false := by
      cases hwr : w.reverse with
      | nil => exact absurd (by simpa using hwr) hw
      | cons a l => rfl
    cases ws with
    | nil =>
      show splitWsAux (joinSp [w]) [] = [w]
      rw [joinSp_single]
      have haux := splitWsAux_nonspace w [] [] hwall
      rw [List.append_nil] at haux
      rw [haux]
      simp only [splitWsAux, List.append_nil]
      rw [if_neg (by rw [hwrev]; exact Bool.noConfusion)]
      rw [List.reverse_reverse]
    | cons w2 ws2 =>
      show splitWsAux (joinSp (w :: w2 :: ws2)) [] = w :: w2 :: ws2
      rw [joinSp_cons]
      rw [splitWsAux_nonspace w (' ' :: joinSp (w2 :: ws2)) [] hwall]
      simp only [List.append_nil, splitWsAux]
      rw [if_pos (by decide), if_neg (by rw [hwrev]; exact Bool.noConfusion)]
      rw [List.reverse_reverse]
      congr 1
      exact ih (fun v hv => h v (by simp [hv]))

/-- The head of a string with a nonempty prefix equals the prefix head. -/
theorem pfx_head (p : Char) (ps : Str) (c : Char) (rest : Str)
    (h : pfx (p :: ps) (c :: rest) = true) : p = c := by
  simp only [pfx, Bool.and_eq_true, beq_iff_eq] at h
  exact h.1

/-- Alternative 1 cannot match inside a lowercase-and-spaces string
(no `@` is present). -/
theorem matchAt1_none (s : Str) (hall : s.all lowSp = true) : matchAt1 s = none := by
  have hp : pfx ("@[A-Za-z0-9".toList) s = false := by
    cases s with
    | nil => decide
    | cons c rest =>
      cases hx : pfx ("@[A-Za-z0-9".toList) (c :: rest) with
      | false => rfl
      | true =>
        exfalso
        have hhead : '@' = c := pfx_head '@' ("[A-Za-z0-9".toList) c rest hx
        rw [List.all_cons, Bool.and_eq_true] at hall
        have hn := lowSp_nat c hall.1
        rw [← hhead] at hn
        exact absurd hn (by decide)
  unfold matchAt1
  rw [hp]
  simp

/-- Alternative 2 cannot match a lowercase letter or a space (both lie in the
kept class). -/
theorem matchAt2_none (s : Str) (hall : s.all lowSp = true) : matchAt2 s = none := by
  cases s with
  | nil => rfl
  | cons c rest =>
    rw [List.all_cons, Bool.and_eq_true] at hall
    have hn := lowSp_nat c hall.1
    have hcond : (isAlnumAscii c || c.toNat == 32 || c.toNat == 9) = true := by
      simp [isAlnumAscii, isDigitCh, isUpperCh, isLowerCh]
      omega
    show (if (isAlnumAscii c || c.toNat == 32 || c.toNat == 9) = true
        then none else some 1) = (none : Option Nat)
    rw [hcond]
    simp

/-- Alternative 3 cannot match inside a lowercase-and-spaces string
(no `:` is present). -/
theorem matchAt3_none (s : Str) (hall : s.all lowSp = true) : matchAt3 s = none := by
  have hpfx : pfx ("://".toList) (s.drop (countLeading isWordCh s)) = false := by
    cases hd : s.drop (countLeading isWordCh s) with
    | nil => decide
    | cons d rest2 =>
      cases hx : pfx ("://".toList) (d :: rest2) with
      | false => rfl
      | true =>
        exfalso
        have hhead : ':' = d := pfx_head ':' ("//".toList) d rest2 hx
        have hdmem : d ∈ s := List.drop_subset _ s (by rw [hd]; simp)
        rw [List.all_eq_true] at hall
        have hn := lowSp_nat d (hall d hdmem)
        rw [← hhead] at hn
        exact absurd hn (by decide)
  simp only [matchAt3]
  rw [hpfx]
  simp

/-- Alternative 4 cannot match when the scan is past the start or the string
does not begin with `rt`. -/
theorem matchAt4_none (b : Bool) (s : Str)
    (hrt : b = true → pfx ("rt".toList) s = false) : matchAt4 b s = none := by
  unfold matchAt4
  cases b with
  | false => simp
  | true =>
    rw [hrt rfl]
    simp

/-- Alternative 5 cannot match when no `http` is followed by a character. -/
theorem matchAt5_none (s : Str) (hhttp : hasHttpPlus s = false) : matchAt5 s = none := by
  cases hx : pfx ("http".toList) s with
  | false =>
    unfold matchAt5
    rw [hx]
    simp
  | true =>
    cases s with
    | nil => exact absurd hx (by decide)
    | cons c rest =>
      unfold hasHttpPlus at hhttp
      rw [Bool.or_eq_false_iff] at hhttp
      have h1 := hhttp.1
      rw [hx] at h1
      simp at h1
      have hdrop : (c :: rest).drop 4 = [] := by
        rw [List.drop_eq_nil_iff]
        simp
        omega
      unfold matchAt5
      rw [hx, hdrop]
      simp

/-- On a lowercase-and-spaces string not beginning with `rt` (when at the
start) and containing no `http` followed by a character, no alternative of
regex pass 1 matches. -/
theorem reMatch1_none (b : Bool) (s : Str)
    (hall : s.all lowSp = true)
    (hrt : b = true → pfx ("rt".toList) s = false)
    (hhttp : hasHttpPlus s = false) :
    reMatch1 b s = none := by
  unfold reMatch1
  rw [matchAt1_none s hall, matchAt2_none s hall, matchAt3_none s hall,
    matchAt4_none b s hrt, matchAt5_none s hhttp]
  rfl

/-- Regex pass 1 is the identity when no alternative can match anywhere. -/
theorem reSub1F_id :
    ∀ (fuel : Nat) (b : Bool) (s : Str),
      s.all lowSp = true →
      (b = true → pfx ("rt".toList) s = false) →
      hasHttpPlus s = false →
      reSub1F fuel b s = s := by
  intro fuel
  induction fuel with
  | zero => intro b s _ _ _; rfl
  | succ fuel ih =>
    intro b s hall hrt hhttp
    cases s with
    | nil => rfl
    | cons c rest =>
      simp only [reSub1F]
      rw [reMatch1_none b (c :: rest) hall hrt hhttp]
      show c :: reSub1F fuel false rest = c :: rest
      congr 1
      rw [List.all_cons, Bool.and_eq_true] at hall
      apply ih false rest hall.2 (fun hb => Bool.noConfusion hb)
      unfold hasHttpPlus at hhttp
      rw [Bool.or_eq_false_iff] at hhttp
      exact hhttp.2

/-- A lowercase letter is a word character. -/
theorem lower_word (c : Char) (h : isLowerCh c = true) : isWordCh c = true := by
  simp [isWordCh, isAlnumAscii, h]

/-- Pass 2 ignores fuel on the empty string. -/
theorem reSub2F_nil : ∀ fuel, reSub2F fuel [] = [] := by
  intro fuel
  cases fuel <;> rfl

/-- Regex pass 2 is the identity on lowercase words separated by isolated
spaces (a single space maps to a single space). -/
theorem reSub2F_id :
    ∀ (fuel : Nat) (s : Str),
      s.all lowSp = true → noDoubleSp s = true →
      reSub2F fuel s = s := by
  intro fuel
  induction fuel with
  | zero => intro s _ _; rfl
  | succ fuel ih =>
    intro s hall hnd
    cases s with
    | nil => rfl
    | cons c rest =>
      have hallc := hall
      rw [List.all_cons, Bool.and_eq_true] at hallc
      have hrest_nd : noDoubleSp rest = true := by
        cases rest with
        | nil => rfl
        | cons d r2 =>
          unfold noDoubleSp at hnd
          rw [Bool.and_eq_true] at hnd
          exact hnd.2
      by_cases hw : isWordCh c = true
      · simp only [reSub2F]
        rw [if_pos hw]
        congr 1
        exact ih rest hallc.2 hrest_nd
      · have hwf : isWordCh c = false := by
          cases h : isWordCh c with
          | false => rfl
          | true => exact absurd h hw
        have hc32 : c.toNat = 32 := by
          rcases lowSp_nat c hallc.1 with h1 | h1
          · exfalso
            apply hw
            simp [isWordCh, isAlnumAscii, isLowerCh]
            omega
          · exact h1
        have hcsp : c = ' ' := char32_eq_space c hc32
        have hdfact : rest = [] ∨ ∃ d r2, rest = d :: r2 ∧ isLowerCh d = true := by
          cases rest with
          | nil => exact Or.inl rfl
          | cons d r2 =>
            refine Or.inr ⟨d, r2, rfl, ?_⟩
            have hd : lowSp d = true := by
              have h2 := hallc.2
              rw [List.all_cons, Bool.and_eq_true] at h2
              exact h2.1
            rcases lowSp_nat d hd with h1 | h1
            · simp [isLowerCh]
              omega
            · exfalso
              unfold noDoubleSp at hnd
              rw [Bool.and_eq_true] at hnd
              have h0 := hnd.1
              rw [hc32, h1] at h0
              simp at h0
        rcases hdfact with rfl | ⟨d, r2, rfl, hdlow⟩
        · simp only [reSub2F]
          rw [if_neg hw]
          have hk : countLeading (fun c => !isWordCh c) [c] = 1 := by
            simp [countLeading, hwf]
          rw [hk]
          simp only [List.drop_succ_cons, List.drop_nil, countLeading, List.drop_zero]
          rw [reSub2F_nil]
          rw [hcsp]
        · have hdw : isWordCh d = true := lower_word d hdlow
          simp only [reSub2F]
          rw [if_neg hw]
          have hk : countLeading (fun c => !isWordCh c) (c :: d :: r2) = 1 := by
            simp [countLeading, hwf, hdw]
          rw [hk]
          simp only [List.drop_succ_cons, List.drop_zero]
          have hm : countLeading isPySpace (d :: r2) = 0 := by
            have hns : isPySpace d = false := by
              simp [isLowerCh] at hdlow
              simp [isPySpace]
              omega
            simp [countLeading, hns]
          rw [hm]
          simp only [List.drop_zero]
          rw [ih (d :: r2) hallc.2 hrest_nd]
          rw [hcsp]

/-- Regex pass 3 is the identity on digit-free strings. -/
theorem reSub3_id (s : Str) (hall : s.all lowSp = true) : reSub3 s = s := by
  unfold reSub3
  rw [List.filter_eq_self]
  intro c hc
  rw [List.all_eq_true] at hall
  rcases lowSp_nat c (hall c hc) with h1 | h1 <;> (simp [isDigitCh]; omega)

/-- Prepending a space-free segment preserves freedom from double spaces. -/
theorem ndsp_append (w t : Str) (hw : w.all (fun c => !(c.toNat == 32)) = true)
    (ht : noDoubleSp t = true) : noDoubleSp (w ++ t) = true := by
  induction w with
  | nil => simpa using ht
  | cons c w ih =>
    rw [List.all_cons, Bool.and_eq_true] at hw
    have hrest := ih hw.2
    cases hwt : w ++ t with
    | nil =>
      rw [List.cons_append, hwt]
      rfl
    | cons d rest =>
      rw [List.cons_append, hwt]
      show noDoubleSp (c :: d :: rest) = true
      simp only [noDoubleSp]
      rw [Bool.and_eq_true]
      constructor
      · have hc : (c.toNat == 32) = false := by simpa using hw.1
        simp [hc]
      · rw [← hwt]
        exact hrest

/-- Lowercase characters are not the space character. -/
theorem lower_not32 (w : Str) (h : w.all isLowerCh = true) :
    w.all (fun c => !(c.toNat == 32)) = true := by
  apply allWeaken isLowerCh _ _ w h
  intro c hc
  simp [isLowerCh] at hc
  simp
  omega

/-- A space-join of nonempty lowercase words has no double spaces. -/
theorem ndsp_joinSp :
    ∀ ws : List Str, (∀ w ∈ ws, w ≠ [] ∧ w.all isLowerCh = true) →
      noDoubleSp (joinSp ws) = true := by
  intro ws
  induction ws with
  | nil => intro _; rfl
  | cons w ws ih =>
    intro h
    obtain ⟨hw, hwall⟩ := h w (by simp)
    cases ws with
    | nil =>
      rw [joinSp_single]
      have := ndsp_append w [] (lower_not32 w hwall) rfl
      simpa using this
    | cons w2 ws2 =>
      rw [joinSp_cons]
      apply ndsp_append w _ (lower_not32 w hwall)
      obtain ⟨hw2, hw2all⟩ := h w2 (by simp)
      obtain ⟨c2, w2tl, rfl⟩ : ∃ c2 w2tl, w2 = c2 :: w2tl := by
        cases w2 with
        | nil => exact absurd rfl hw2
        | cons a b => exact ⟨a, b, rfl⟩
      have hc2low : isLowerCh c2 = true := by
        rw [List.all_cons, Bool.and_eq_true] at hw2all
        exact hw2all.1
      have hshape : ∃ tl, joinSp ((c2 :: w2tl) :: ws2) = c2 :: tl := by
        cases ws2 with
        | nil => exact ⟨w2tl, joinSp_single _⟩
        | cons w3 ws3 =>
          exact ⟨w2tl ++ ' ' :: joinSp (w3 :: ws3), by rw [joinSp_cons]; rfl⟩
      obtain ⟨tl, htl⟩ := hshape
      rw [htl]
      show noDoubleSp (' ' :: c2 :: tl) = true
      simp only [noDoubleSp]
      rw [Bool.and_eq_true]
      constructor
      · have : (c2.toNat == 32) = false := by
          simp [isLowerCh] at hc2low
          simp
          omega
        simp [this]
      · rw [← htl]
        exact ih (fun v hv => h v (by simp [hv]))

/-- On a string of the cleaning pipeline's output shape — nonempty lowercase
words joined by single spaces, not beginning with `rt`, without `http`
followed by a character — both pipeline stages are the identity. -/
theorem pipeline_id_of (s : Str)
    (hws : ∃ ws, s = joinSp ws ∧ ∀ w ∈ ws, w ≠ [] ∧ w.all isLowerCh = true)
    (hrt : pfx ("rt".toList) s = false)
    (hhttp : hasHttpPlus s = false) :
    clean_text s = s ∧ turkish_characters s = s := by
  obtain ⟨ws, rfl, hw⟩ := hws
  have hall : (joinSp ws).all lowSp = true := by
    apply joinSp_all lowSp (by decide) ws
    intro w hw0
    apply allWeaken isLowerCh lowSp _ w (hw w hw0).2
    intro c hc
    simp [lowSp, hc]
  have hnd : noDoubleSp (joinSp ws) = true := ndsp_joinSp ws hw
  constructor
  · unfold clean_text
    rw [mapIdOfAll pyLower _ (fun c hc => pyLower_id c (by
      rw [List.all_eq_true] at hall
      exact hall c hc))]
    unfold dropTags
    rw [splitWs_joinSp ws (fun w hw0 =>
      ⟨(hw w hw0).1, allWeaken isLowerCh _ (fun c hc => lower_not_space c hc) w (hw w hw0).2⟩)]
    rw [List.filter_eq_self.mpr (fun w hw0 => keepTok_of_lower w (hw w hw0).2)]
    have h1 : reSub1 true (joinSp ws) = joinSp ws :=
      reSub1F_id _ true _ hall (fun _ => hrt) hhttp
    rw [h1]
    have h2 : reSub2 (joinSp ws) = joinSp ws := reSub2F_id _ _ hall hnd
    rw [h2]
    exact reSub3_id _ hall
  · apply mapIdOfAll
    intro c hc
    apply turkishTrans_id
    rw [List.all_eq_true] at hall
    rcases lowSp_nat c (hall c hc) with h1 | h1 <;> omega

/-- C2 amended: normalization is idempotent on every input whose normalized
form is a join of nonempty lowercase words by single spaces that does not
begin with `rt` and contains no `http` followed by another character (the
counterexample shows idempotence fails in general: digit removal can leave
double spaces that only the second pass collapses). -/
theorem C2_idempotence_amended (x : Str)
    (hws : ∃ ws, normalizeText x = joinSp ws ∧ ∀ w ∈ ws, w ≠ [] ∧ w.all isLowerCh = true)
    (hrt : pfx ("rt".toList) (normalizeText x) = false)
    (hhttp : hasHttpPlus (normalizeText x) = false) :
    normalizeText (normalizeText x) = normalizeText x := by
  obtain ⟨hclean, hturk⟩ := pipeline_id_of (normalizeText x) hws hrt hhttp
  show clean_text (turkish_characters (normalizeText x)) = normalizeText x
  rw [hturk, hclean]

/-- Witness for C2's amended statement at the input `hello world`. -/
theorem C2_idempotence_amended_witness :
    normalizeText (normalizeText ("hello world".toList)) = normalizeText ("hello world".toList) :=
  C2_idempotence_amended ("hello world".toList)
    ⟨["hello".toList, "world".toList], by decide, by decide⟩ (by decide) (by decide)
